import Mathlib

/-!
Verification of the traversal engine in
`src/crates/estree-detect-requires/src/walk.rs` (the `Walker` type and its
`Callbacks` trait).

The AST node types come from the external `easter` crate; they are embedded
here with the shape the walker's pattern matches and field accesses require
(spans/locations are dropped, identifier payloads are plain strings, and
variants the walker never matches are kept as explicit catch-all
constructors).  The walker itself is a direct transcription: each Rust
method becomes a Lean function threading the callback state `C` through the
hooks in source order.  The `pre_*`/`post_*` hooks of the Rust `Callbacks`
trait become fields of a `Callbacks C` structure of type `C → node → C`.
-/

namespace JsBundler

set_option maxHeartbeats 1600000

/-- easter binding pattern (`Patt` / `CompoundPatt`).  The walker never
decomposes patterns (`walk_patt` ignores its argument), so the compound case
is kept opaque. -/
inductive Patt : Type where
  | Simple (id : String)
  | Compound (tag : String)
deriving DecidableEq

mutual

/-- easter `Script`: the root node, an ordered list of top-level items. -/
inductive Script : Type where
  | mk (items : List StmtListItem)

/-- easter `StmtListItem`: an item in a statement list. -/
inductive StmtListItem : Type where
  | Stmt (s : Stmt)
  | Decl (d : Decl)

/-- easter `Stmt`.  The variants matched by `Walker::walk_stmt` are carried
with the fields the walker touches (the easter `Block` struct is represented
by its `items` list; spans and labels irrelevant to traversal are dropped or
kept as strings).  Statement variants the walker's `_ => ()` arm catches
(easter `Empty`, `Break`, `Cont`, `Debugger`, …) are represented by
`Other`. -/
inductive Stmt : Type where
  | Block (items : List StmtListItem)
  | Var (dtors : List Dtor)
  | Expr (e : Expr)
  | If (cond : Expr) (cons : Stmt) (alt : Option Stmt)
  | Label (name : String) (body : Stmt)
  | Switch (cond : Expr) (cases : List Case)
  | Return (arg : Option Expr)
  | Throw (arg : Expr)
  | Try (block : List StmtListItem) (caught : Option Catch) (finBlock : Option (List StmtListItem))
  | While (cond : Expr) (body : Stmt)
  | DoWhile (body : Stmt) (cond : Expr)
  | For (init : Option ForHead) (cond : Option Expr) (update : Option Expr) (body : Stmt)
  | ForIn (head : ForInHead) (iterable : Expr) (body : Stmt)
  | ForOf (head : ForOfHead) (iterable : Expr) (body : Stmt)
  | Other (tag : String)

/-- easter `ForHead`: the init head of a C-style `for` loop.  The walker
never traverses it (the call is commented out in the source). -/
inductive ForHead : Type where
  | Var (dtors : List Dtor)
  | Let (dtors : List Dtor)
  | Expr (e : Expr)

/-- easter `ForInHead`: the binding head of a `for-in` loop; never
traversed by the walker. -/
inductive ForInHead : Type where
  | Var (p : Patt)
  | Let (p : Patt)
  | Patt (p : Patt)

/-- easter `ForOfHead`: the binding head of a `for-of` loop; never
traversed by the walker. -/
inductive ForOfHead : Type where
  | Var (p : Patt)
  | Let (p : Patt)
  | Patt (p : Patt)

/-- easter `Case`: one arm of a `switch`, an optional test expression plus a
body list. -/
inductive Case : Type where
  | mk (test : Option Expr) (body : List StmtListItem)

/-- easter `Catch`: a catch clause, a parameter pattern plus a body; the
walker walks `caught.body.items` and ignores the parameter. -/
inductive Catch : Type where
  | mk (param : Patt) (body : Script)

/-- easter `Decl` (`Fun` / `Let` / `Const`); constructor names carry a
`Decl` suffix because `fun` and `let` are Lean keywords. -/
inductive Decl : Type where
  | FunDecl (f : Fun)
  | LetDecl (dtors : List Dtor)
  | ConstDecl (dtors : List ConstDtor)

/-- easter `Dtor`: a `var`/`let` declarator, either a simple identifier
binding with an optional initializer or a compound (destructuring) pattern
with a mandatory initializer — `Walker::walk_dtor` matches
`Dtor::Simple(_, _, Some(expr))` only. -/
inductive Dtor : Type where
  | Simple (id : String) (init : Option Expr)
  | Compound (patt : Patt) (value : Expr)

/-- easter `ConstDtor`: a `const` declarator, a pattern plus a mandatory
initializer (`dtor.patt` / `dtor.value` in `Walker::walk_decl`). -/
inductive ConstDtor : Type where
  | mk (patt : Patt) (value : Expr)

/-- easter `Expr`.  Variants matched by `Walker::walk_expr` carry the
fields the walker touches; operators are kept as opaque strings.  `Id` and
`New` are easter variants the walker's `_ => ()` arm catches (`New` shows
that an uncovered variant can have children which are then not walked);
remaining uncovered variants (`This`, literals, …) are `Other`. -/
inductive Expr : Type where
  | Call (callee : Expr) (args : List ExprListItem)
  | Seq (exprs : List Expr)
  | Arr (elements : List (Option ExprListItem))
  | Obj (properties : List Prop')
  | Fun (f : Fun)
  | Binop (op : String) (a : Expr) (b : Expr)
  | Logop (op : String) (a : Expr) (b : Expr)
  | Unop (op : String) (e : Expr)
  | PreInc (target : AssignTarget)
  | PostInc (target : AssignTarget)
  | PreDec (target : AssignTarget)
  | PostDec (target : AssignTarget)
  | Assign (target : Patt) (value : Expr)
  | BinAssign (op : String) (target : AssignTarget) (value : Expr)
  | Cond (cond : Expr) (cons : Expr) (alt : Expr)
  | Dot (object : Expr) (property : String)
  | Brack (object : Expr) (property : Expr)
  | Id (name : String)
  | New (callee : Expr) (args : List ExprListItem)
  | Other (tag : String)

/-- easter `ExprListItem`: a call argument or array element, plain or
spread. -/
inductive ExprListItem : Type where
  | Expr (e : Expr)
  | Spread (e : Expr)

/-- easter `AssignTarget`: the left side of an increment/decrement or
compound assignment. -/
inductive AssignTarget : Type where
  | Id (name : String)
  | Dot (object : Expr) (property : String)
  | Brack (object : Expr) (property : Expr)

/-- easter `Prop` (object-literal property); named `Prop'` because `Prop`
is reserved in Lean. -/
inductive Prop' : Type where
  | Regular (key : String) (val : PropVal)
  | Method (f : Fun)
  | Shorthand (id : String)

/-- easter `PropVal`: a regular property's value — a plain initializer
expression or a getter/setter accessor body. -/
inductive PropVal : Type where
  | Init (value : Expr)
  | Get (body : Script)
  | Set (param : Patt) (body : Script)

/-- easter `Fun<Id>`: a function declaration or expression.  The Rust type
is generic over the identifier representation (`Id` for declarations,
`Option<Id>` for expressions); it is instantiated here with `Option String`,
which covers both.  Parameters are held but never traversed. -/
inductive Fun : Type where
  | mk (id : Option String) (params : List Patt) (body : Script)

end

/-- The item list of a `Script` (the `.items` field access in the Rust
source). -/
def Script.items : Script → List StmtListItem
  | .mk items => items

/-- The body of a `Fun` (the `.body` field access in the Rust source). -/
def Fun.body : Fun → Script
  | .mk _ _ b => b

/-- The five node categories that have enter/exit hooks in the `Callbacks`
trait: Script, Statement, Expression, Declaration, Function. -/
inductive Cat : Type where
  | script
  | stmt
  | expr
  | decl
  | fn
deriving DecidableEq

/-- One observable hook invocation, carrying the node the hook received. -/
inductive Event : Type where
  | enterScript (n : Script)
  | exitScript (n : Script)
  | enterStmt (n : Stmt)
  | exitStmt (n : Stmt)
  | enterExpr (n : Expr)
  | exitExpr (n : Expr)
  | enterDecl (n : Decl)
  | exitDecl (n : Decl)
  | enterFun (n : Fun)
  | exitFun (n : Fun)

/-- Is this event an enter hook of the given category? -/
def isEnter : Cat → Event → Bool
  | .script, .enterScript _ => true
  | .stmt, .enterStmt _ => true
  | .expr, .enterExpr _ => true
  | .decl, .enterDecl _ => true
  | .fn, .enterFun _ => true
  | _, _ => false

/-- Is this event an exit hook of the given category? -/
def isExit : Cat → Event → Bool
  | .script, .exitScript _ => true
  | .stmt, .exitStmt _ => true
  | .expr, .exitExpr _ => true
  | .decl, .exitDecl _ => true
  | .fn, .exitFun _ => true
  | _, _ => false

/-- Number of enter-hook calls of a category in a trace. -/
def countEnter (cat : Cat) (t : List Event) : Nat :=
  t.countP (isEnter cat)

/-- Number of exit-hook calls of a category in a trace. -/
def countExit (cat : Cat) (t : List Event) : Nat :=
  t.countP (isExit cat)

/-- The `Callbacks` trait of the Rust source: ten optional hooks, modelled
as state transformers over a caller-chosen state type `C` (the `&mut self`
receiver of the Rust trait becomes explicit state passing). -/
structure Callbacks (C : Type) where
  pre_script : C → Script → C
  pre_stmt : C → Stmt → C
  pre_expr : C → Expr → C
  pre_decl : C → Decl → C
  pre_fun : C → Fun → C
  post_script : C → Script → C
  post_stmt : C → Stmt → C
  post_expr : C → Expr → C
  post_decl : C → Decl → C
  post_fun : C → Fun → C

variable {C : Type}

/-- `Walker::walk_patt`: ignores its argument ("ignore for now"). -/
def walk_patt (_cb : Callbacks C) (c : C) (_target : Patt) : C := c

mutual

/-- `Walker::walk_script`: pre-script hook, each item, post-script hook. -/
def walk_script (cb : Callbacks C) (c : C) (ast : Script) : C :=
  match ast with
  | .mk items =>
    cb.post_script (walk_items cb (cb.pre_script c (.mk items)) items) (.mk items)

/-- The `for item in … { self.walk_stmt_item(item) }` loops of the Rust
source, over a statement-item list. -/
def walk_items (cb : Callbacks C) (c : C) (items : List StmtListItem) : C :=
  match items with
  | [] => c
  | item :: rest => walk_items cb (walk_stmt_item cb c item) rest
termination_by (sizeOf items, 0)

/-- `Walker::walk_stmt_item`. -/
def walk_stmt_item (cb : Callbacks C) (c : C) (item : StmtListItem) : C :=
  match item with
  | .Stmt s => walk_stmt cb c s
  | .Decl d => walk_decl cb c d
termination_by (sizeOf item, 0)

/-- `Walker::walk_stmt`: pre-statement hook, dispatch on the variant,
post-statement hook. -/
def walk_stmt (cb : Callbacks C) (c : C) (stmt : Stmt) : C :=
  cb.post_stmt (walk_stmt_inner cb (cb.pre_stmt c stmt) stmt) stmt
termination_by (sizeOf stmt, 1)

/-- The dispatch `match` inside `Walker::walk_stmt` (between the two
hooks), split out as its own definition. -/
def walk_stmt_inner (cb : Callbacks C) (c : C) (stmt : Stmt) : C :=
  match stmt with
  | .Block items => walk_items cb c items
  | .Var dtors => walk_var cb c dtors
  | .Expr e => walk_expr cb c e
  | .If cond cons alt =>
    let c1 := walk_expr cb c cond
    let c2 := walk_stmt cb c1 cons
    match alt with
    | some node => walk_stmt cb c2 node
    | none => c2
  | .Label _ block => walk_stmt cb c block
  | .Switch cond cases => walk_cases cb (walk_expr cb c cond) cases
  | .Return (some arg) => walk_expr cb c arg
  | .Throw arg => walk_expr cb c arg
  | .Try block caught finBlock =>
    let c1 := walk_items cb c block
    let c2 :=
      match caught with
      | some (.mk _ (.mk body_items)) => walk_items cb c1 body_items
      | none => c1
    match finBlock with
    | some items => walk_items cb c2 items
    | none => c2
  | .While cond body => walk_stmt cb (walk_expr cb c cond) body
  | .DoWhile body cond => walk_expr cb (walk_stmt cb c body) cond
  | .For _init cond update body =>
    let c1 :=
      match cond with
      | some node => walk_expr cb c node
      | none => c
    let c2 :=
      match update with
      | some node => walk_expr cb c1 node
      | none => c1
    walk_stmt cb c2 body
  | .ForIn _head iterable body => walk_stmt cb (walk_expr cb c iterable) body
  | .ForOf _head iterable body => walk_stmt cb (walk_expr cb c iterable) body
  | _ => c
termination_by (sizeOf stmt, 0)

/-- The `for case in cases { … }` loop inside the `Switch` arm of
`Walker::walk_stmt`: per case, the optional test then the body items. -/
def walk_cases (cb : Callbacks C) (c : C) (cases : List Case) : C :=
  match cases with
  | [] => c
  | .mk test body :: rest =>
    let c1 :=
      match test with
      | some t => walk_expr cb c t
      | none => c
    walk_cases cb (walk_items cb c1 body) rest
termination_by (sizeOf cases, 0)

/-- `Walker::walk_decl`: pre-declaration hook, dispatch, post-declaration
hook.  The `Let` arm's inline loop over `walk_dtor` is the same loop as
`walk_var`. -/
def walk_decl (cb : Callbacks C) (c : C) (decl : Decl) : C :=
  cb.post_decl (walk_decl_inner cb (cb.pre_decl c decl) decl) decl
termination_by (sizeOf decl, 1)

/-- The dispatch `match` inside `Walker::walk_decl`. -/
def walk_decl_inner (cb : Callbacks C) (c : C) (decl : Decl) : C :=
  match decl with
  | .FunDecl f => walk_fun cb c f
  | .LetDecl dtors => walk_var cb c dtors
  | .ConstDecl dtors => walk_const_dtors cb c dtors
termination_by (sizeOf decl, 0)

/-- `Walker::walk_var`: walk each declarator. -/
def walk_var (cb : Callbacks C) (c : C) (dtors : List Dtor) : C :=
  match dtors with
  | [] => c
  | dtor :: rest => walk_var cb (walk_dtor cb c dtor) rest
termination_by (sizeOf dtors, 0)

/-- `Walker::walk_dtor`: `if let Dtor::Simple(_, _, Some(expr)) { walk_expr }`
— only a simple declarator with a present initializer is walked. -/
def walk_dtor (cb : Callbacks C) (c : C) (dtor : Dtor) : C :=
  match dtor with
  | .Simple _ (some e) => walk_expr cb c e
  | _ => c
termination_by (sizeOf dtor, 0)

/-- The `for dtor in dtors { walk_patt(&dtor.patt); walk_expr(&dtor.value) }`
loop of the `Const` arm in `Walker::walk_decl`. -/
def walk_const_dtors (cb : Callbacks C) (c : C) (dtors : List ConstDtor) : C :=
  match dtors with
  | [] => c
  | .mk patt value :: rest =>
    walk_const_dtors cb (walk_expr cb (walk_patt cb c patt) value) rest
termination_by (sizeOf dtors, 0)

/-- `Walker::walk_expr`: pre-expression hook, dispatch on the variant,
post-expression hook. -/
def walk_expr (cb : Callbacks C) (c : C) (expr : Expr) : C :=
  cb.post_expr (walk_expr_inner cb (cb.pre_expr c expr) expr) expr
termination_by (sizeOf expr, 1)

/-- The dispatch `match` inside `Walker::walk_expr`. -/
def walk_expr_inner (cb : Callbacks C) (c : C) (expr : Expr) : C :=
  match expr with
  | .Call callee args => walk_args cb (walk_expr cb c callee) args
  | .Seq exprs => walk_exprs cb c exprs
  | .Arr elements => walk_elements cb c elements
  | .Obj properties => walk_props cb c properties
  | .Fun f => walk_fun cb c f
  | .Binop _ a b => walk_expr cb (walk_expr cb c a) b
  | .Logop _ a b => walk_expr cb (walk_expr cb c a) b
  | .Unop _ e => walk_expr cb c e
  | .PreInc target => walk_assign_target cb c target
  | .PostInc target => walk_assign_target cb c target
  | .PreDec target => walk_assign_target cb c target
  | .PostDec target => walk_assign_target cb c target
  | .Assign target e => walk_expr cb (walk_patt cb c target) e
  | .BinAssign _ target e => walk_expr cb (walk_assign_target cb c target) e
  | .Cond cond cons alt => walk_expr cb (walk_expr cb (walk_expr cb c cond) cons) alt
  | .Dot object _ => walk_expr cb c object
  | .Brack object property => walk_expr cb (walk_expr cb c object) property
  | _ => c
termination_by (sizeOf expr, 0)

/-- The `for arg in args { … }` loop inside the `Call` arm of
`Walker::walk_expr`: spread and non-spread arguments both yield their inner
expression. -/
def walk_args (cb : Callbacks C) (c : C) (args : List ExprListItem) : C :=
  match args with
  | [] => c
  | .Expr e :: rest => walk_args cb (walk_expr cb c e) rest
  | .Spread e :: rest => walk_args cb (walk_expr cb c e) rest
termination_by (sizeOf args, 0)

/-- The `for expr in exprs { … }` loop inside the `Seq` arm of
`Walker::walk_expr`. -/
def walk_exprs (cb : Callbacks C) (c : C) (exprs : List Expr) : C :=
  match exprs with
  | [] => c
  | e :: rest => walk_exprs cb (walk_expr cb c e) rest
termination_by (sizeOf exprs, 0)

/-- The `for el in elements { … }` loop inside the `Arr` arm of
`Walker::walk_expr`: holes (`None`) contribute nothing. -/
def walk_elements (cb : Callbacks C) (c : C) (elements : List (Option ExprListItem)) : C :=
  match elements with
  | [] => c
  | some (.Expr e) :: rest => walk_elements cb (walk_expr cb c e) rest
  | some (.Spread e) :: rest => walk_elements cb (walk_expr cb c e) rest
  | none :: rest => walk_elements cb c rest
termination_by (sizeOf elements, 0)

/-- The `for prop in properties { … }` loop inside the `Obj` arm of
`Walker::walk_expr`. -/
def walk_props (cb : Callbacks C) (c : C) (props : List Prop') : C :=
  match props with
  | [] => c
  | prop :: rest => walk_props cb (walk_prop cb c prop) rest
termination_by (sizeOf props, 0)

/-- `Walker::walk_prop`: dispatch on the property kind; no hooks of its
own. -/
def walk_prop (cb : Callbacks C) (c : C) (prop : Prop') : C :=
  match prop with
  | .Regular _ (.Init value) => walk_expr cb c value
  | .Regular _ (.Get (.mk items)) => walk_items cb c items
  | .Regular _ (.Set _ (.mk items)) => walk_items cb c items
  | .Method f => walk_fun cb c f
  | .Shorthand _ => c
termination_by (sizeOf prop, 0)

/-- `Walker::walk_assign_target`. -/
def walk_assign_target (cb : Callbacks C) (c : C) (target : AssignTarget) : C :=
  match target with
  | .Id _ => c
  | .Dot object _ => walk_expr cb c object
  | .Brack object property => walk_expr cb (walk_expr cb c object) property
termination_by (sizeOf target, 0)

/-- `Walker::walk_fun`: pre-function hook, the body's items, post-function
hook; parameters are not traversed. -/
def walk_fun (cb : Callbacks C) (c : C) (f : Fun) : C :=
  match f with
  | .mk i p (.mk items) =>
    cb.post_fun (walk_items cb (cb.pre_fun c (.mk i p (.mk items))) items) (.mk i p (.mk items))
termination_by (sizeOf f, 0)

end

/-- The `Walker` struct: a borrowed AST root plus the callback state. -/
structure Walker (C : Type) where
  ast : Script
  callbacks : C

/-- `Walker::new`. -/
def Walker.new (ast : Script) (callbacks : C) : Walker C :=
  ⟨ast, callbacks⟩

/-- `Walker::walk`: run the walk from the Script root and hand the callback
state back. -/
def Walker.walk (cb : Callbacks C) (w : Walker C) : C :=
  walk_script cb w.callbacks w.ast

/-- The tracing callback set: the state is the chronological list of hook
invocations and every hook appends its own event.  This is one concrete
`Callbacks` implementation (the Rust trait allows any); it records the
complete observable behaviour of a walk. -/
def traceCallbacks : Callbacks (List Event) where
  pre_script := fun t n => t ++ [.enterScript n]
  pre_stmt := fun t n => t ++ [.enterStmt n]
  pre_expr := fun t n => t ++ [.enterExpr n]
  pre_decl := fun t n => t ++ [.enterDecl n]
  pre_fun := fun t n => t ++ [.enterFun n]
  post_script := fun t n => t ++ [.exitScript n]
  post_stmt := fun t n => t ++ [.exitStmt n]
  post_expr := fun t n => t ++ [.exitExpr n]
  post_decl := fun t n => t ++ [.exitDecl n]
  post_fun := fun t n => t ++ [.exitFun n]

@[simp] theorem traceCallbacks_pre_script (t : List Event) (n : Script) :
    traceCallbacks.pre_script t n = t ++ [.enterScript n] := rfl

@[simp] theorem traceCallbacks_pre_stmt (t : List Event) (n : Stmt) :
    traceCallbacks.pre_stmt t n = t ++ [.enterStmt n] := rfl

@[simp] theorem traceCallbacks_pre_expr (t : List Event) (n : Expr) :
    traceCallbacks.pre_expr t n = t ++ [.enterExpr n] := rfl

@[simp] theorem traceCallbacks_pre_decl (t : List Event) (n : Decl) :
    traceCallbacks.pre_decl t n = t ++ [.enterDecl n] := rfl

@[simp] theorem traceCallbacks_pre_fun (t : List Event) (n : Fun) :
    traceCallbacks.pre_fun t n = t ++ [.enterFun n] := rfl

@[simp] theorem traceCallbacks_post_script (t : List Event) (n : Script) :
    traceCallbacks.post_script t n = t ++ [.exitScript n] := rfl

@[simp] theorem traceCallbacks_post_stmt (t : List Event) (n : Stmt) :
    traceCallbacks.post_stmt t n = t ++ [.exitStmt n] := rfl

@[simp] theorem traceCallbacks_post_expr (t : List Event) (n : Expr) :
    traceCallbacks.post_expr t n = t ++ [.exitExpr n] := rfl

@[simp] theorem traceCallbacks_post_decl (t : List Event) (n : Decl) :
    traceCallbacks.post_decl t n = t ++ [.exitDecl n] := rfl

@[simp] theorem traceCallbacks_post_fun (t : List Event) (n : Fun) :
    traceCallbacks.post_fun t n = t ++ [.exitFun n] := rfl

/-- Hook sequence of a whole walk from the Script root. -/
def scriptTrace (ast : Script) : List Event :=
  walk_script traceCallbacks [] ast

/-- Hook sequence contributed by a statement-item list. -/
def itemsTrace (items : List StmtListItem) : List Event :=
  walk_items traceCallbacks [] items

/-- Hook sequence contributed by one statement item. -/
def itemTrace (item : StmtListItem) : List Event :=
  walk_stmt_item traceCallbacks [] item

/-- Hook sequence contributed by one statement (its enter hook, its
descendants' hooks, its exit hook). -/
def stmtTrace (s : Stmt) : List Event :=
  walk_stmt traceCallbacks [] s

/-- Hook sequence contributed by a statement's children only. -/
def stmtInnerTrace (s : Stmt) : List Event :=
  walk_stmt_inner traceCallbacks [] s

/-- Hook sequence contributed by a switch-case list. -/
def casesTrace (cs : List Case) : List Event :=
  walk_cases traceCallbacks [] cs

/-- Hook sequence contributed by one declaration. -/
def declTrace (d : Decl) : List Event :=
  walk_decl traceCallbacks [] d

/-- Hook sequence contributed by a declaration's children only. -/
def declInnerTrace (d : Decl) : List Event :=
  walk_decl_inner traceCallbacks [] d

/-- Hook sequence contributed by a `var`/`let` declarator list. -/
def varTrace (ds : List Dtor) : List Event :=
  walk_var traceCallbacks [] ds

/-- Hook sequence contributed by one `var`/`let` declarator. -/
def dtorTrace (d : Dtor) : List Event :=
  walk_dtor traceCallbacks [] d

/-- Hook sequence contributed by a `const` declarator list. -/
def constDtorsTrace (ds : List ConstDtor) : List Event :=
  walk_const_dtors traceCallbacks [] ds

/-- Hook sequence contributed by one expression. -/
def exprTrace (e : Expr) : List Event :=
  walk_expr traceCallbacks [] e

/-- Hook sequence contributed by an expression's children only. -/
def exprInnerTrace (e : Expr) : List Event :=
  walk_expr_inner traceCallbacks [] e

/-- Hook sequence contributed by a call-argument list. -/
def argsTrace (args : List ExprListItem) : List Event :=
  walk_args traceCallbacks [] args

/-- Hook sequence contributed by a sequence-expression list. -/
def exprsTrace (es : List Expr) : List Event :=
  walk_exprs traceCallbacks [] es

/-- Hook sequence contributed by an array-element list. -/
def elementsTrace (els : List (Option ExprListItem)) : List Event :=
  walk_elements traceCallbacks [] els

/-- Hook sequence contributed by an object-property list. -/
def propsTrace (ps : List Prop') : List Event :=
  walk_props traceCallbacks [] ps

/-- Hook sequence contributed by one object property. -/
def propTrace (p : Prop') : List Event :=
  walk_prop traceCallbacks [] p

/-- Hook sequence contributed by one assignment target. -/
def targetTrace (t : AssignTarget) : List Event :=
  walk_assign_target traceCallbacks [] t

/-- Hook sequence contributed by one function node. -/
def funTrace (f : Fun) : List Event :=
  walk_fun traceCallbacks [] f

/-- `h` commutes with every hook: the simulation relation along which a walk
can be transported from callback state `C` to callback state `D`. -/
structure Sim {D : Type} (cb : Callbacks C) (cb' : Callbacks D) (h : C → D) : Prop where
  pre_script : ∀ c n, h (cb.pre_script c n) = cb'.pre_script (h c) n
  pre_stmt : ∀ c n, h (cb.pre_stmt c n) = cb'.pre_stmt (h c) n
  pre_expr : ∀ c n, h (cb.pre_expr c n) = cb'.pre_expr (h c) n
  pre_decl : ∀ c n, h (cb.pre_decl c n) = cb'.pre_decl (h c) n
  pre_fun : ∀ c n, h (cb.pre_fun c n) = cb'.pre_fun (h c) n
  post_script : ∀ c n, h (cb.post_script c n) = cb'.post_script (h c) n
  post_stmt : ∀ c n, h (cb.post_stmt c n) = cb'.post_stmt (h c) n
  post_expr : ∀ c n, h (cb.post_expr c n) = cb'.post_expr (h c) n
  post_decl : ∀ c n, h (cb.post_decl c n) = cb'.post_decl (h c) n
  post_fun : ∀ c n, h (cb.post_fun c n) = cb'.post_fun (h c) n

variable {D : Type} {cb : Callbacks C} {cb' : Callbacks D} {h : C → D}

mutual

theorem walk_items_sim (hs : Sim cb cb' h) (c : C) (items : List StmtListItem) :
    h (walk_items cb c items) = walk_items cb' (h c) items := by
  cases items with
  | nil => simp only [walk_items]
  | cons item rest =>
    simp only [walk_items]
    rw [walk_items_sim hs (walk_stmt_item cb c item) rest, walk_stmt_item_sim hs c item]
termination_by (sizeOf items, 0)

theorem walk_stmt_item_sim (hs : Sim cb cb' h) (c : C) (item : StmtListItem) :
    h (walk_stmt_item cb c item) = walk_stmt_item cb' (h c) item := by
  cases item with
  | Stmt s =>
    simp only [walk_stmt_item]
    exact walk_stmt_sim hs c s
  | Decl d =>
    simp only [walk_stmt_item]
    exact walk_decl_sim hs c d
termination_by (sizeOf item, 0)

theorem walk_stmt_sim (hs : Sim cb cb' h) (c : C) (stmt : Stmt) :
    h (walk_stmt cb c stmt) = walk_stmt cb' (h c) stmt := by
  simp only [walk_stmt]
  rw [hs.post_stmt, walk_stmt_inner_sim hs (cb.pre_stmt c stmt) stmt, hs.pre_stmt]
termination_by (sizeOf stmt, 1)

theorem walk_stmt_inner_sim (hs : Sim cb cb' h) (c : C) (stmt : Stmt) :
    h (walk_stmt_inner cb c stmt) = walk_stmt_inner cb' (h c) stmt := by
  cases stmt with
  | Block items =>
    simp only [walk_stmt_inner]
    exact walk_items_sim hs c items
  | Var dtors =>
    simp only [walk_stmt_inner]
    exact walk_var_sim hs c dtors
  | Expr e =>
    simp only [walk_stmt_inner]
    exact walk_expr_sim hs c e
  | If cond cons alt =>
    cases alt with
    | none =>
      simp only [walk_stmt_inner]
      rw [walk_stmt_sim hs (walk_expr cb c cond) cons, walk_expr_sim hs c cond]
    | some a =>
      simp only [walk_stmt_inner]
      rw [walk_stmt_sim hs (walk_stmt cb (walk_expr cb c cond) cons) a,
        walk_stmt_sim hs (walk_expr cb c cond) cons, walk_expr_sim hs c cond]
  | Label name body =>
    simp only [walk_stmt_inner]
    exact walk_stmt_sim hs c body
  | Switch cond cases =>
    simp only [walk_stmt_inner]
    rw [walk_cases_sim hs (walk_expr cb c cond) cases, walk_expr_sim hs c cond]
  | Return arg =>
    cases arg with
    | none => simp only [walk_stmt_inner]
    | some a =>
      simp only [walk_stmt_inner]
      exact walk_expr_sim hs c a
  | Throw arg =>
    simp only [walk_stmt_inner]
    exact walk_expr_sim hs c arg
  | Try block caught finBlock =>
    cases caught with
    | none =>
      cases finBlock with
      | none =>
        simp only [walk_stmt_inner]
        exact walk_items_sim hs c block
      | some fitems =>
        simp only [walk_stmt_inner]
        rw [walk_items_sim hs (walk_items cb c block) fitems, walk_items_sim hs c block]
    | some ct =>
      cases ct with
      | mk param body =>
        cases body with
        | mk bitems =>
          cases finBlock with
          | none =>
            simp only [walk_stmt_inner]
            rw [walk_items_sim hs (walk_items cb c block) bitems, walk_items_sim hs c block]
          | some fitems =>
            simp only [walk_stmt_inner]
            rw [walk_items_sim hs (walk_items cb (walk_items cb c block) bitems) fitems,
              walk_items_sim hs (walk_items cb c block) bitems, walk_items_sim hs c block]
  | While cond body =>
    simp only [walk_stmt_inner]
    rw [walk_stmt_sim hs (walk_expr cb c cond) body, walk_expr_sim hs c cond]
  | DoWhile body cond =>
    simp only [walk_stmt_inner]
    rw [walk_expr_sim hs (walk_stmt cb c body) cond, walk_stmt_sim hs c body]
  | For init cond update body =>
    cases cond with
    | none =>
      cases update with
      | none =>
        simp only [walk_stmt_inner]
        exact walk_stmt_sim hs c body
      | some u =>
        simp only [walk_stmt_inner]
        rw [walk_stmt_sim hs (walk_expr cb c u) body, walk_expr_sim hs c u]
    | some cd =>
      cases update with
      | none =>
        simp only [walk_stmt_inner]
        rw [walk_stmt_sim hs (walk_expr cb c cd) body, walk_expr_sim hs c cd]
      | some u =>
        simp only [walk_stmt_inner]
        rw [walk_stmt_sim hs (walk_expr cb (walk_expr cb c cd) u) body,
          walk_expr_sim hs (walk_expr cb c cd) u, walk_expr_sim hs c cd]
  | ForIn head iterable body =>
    simp only [walk_stmt_inner]
    rw [walk_stmt_sim hs (walk_expr cb c iterable) body, walk_expr_sim hs c iterable]
  | ForOf head iterable body =>
    simp only [walk_stmt_inner]
    rw [walk_stmt_sim hs (walk_expr cb c iterable) body, walk_expr_sim hs c iterable]
  | Other tag => simp only [walk_stmt_inner]
termination_by (sizeOf stmt, 0)

theorem walk_cases_sim (hs : Sim cb cb' h) (c : C) (cases' : List Case) :
    h (walk_cases cb c cases') = walk_cases cb' (h c) cases' := by
  cases cases' with
  | nil => simp only [walk_cases]
  | cons hd rest =>
    cases hd with
    | mk test body =>
      cases test with
      | none =>
        simp only [walk_cases]
        rw [walk_cases_sim hs (walk_items cb c body) rest, walk_items_sim hs c body]
      | some t =>
        simp only [walk_cases]
        rw [walk_cases_sim hs (walk_items cb (walk_expr cb c t) body) rest,
          walk_items_sim hs (walk_expr cb c t) body, walk_expr_sim hs c t]
termination_by (sizeOf cases', 0)

theorem walk_decl_sim (hs : Sim cb cb' h) (c : C) (decl : Decl) :
    h (walk_decl cb c decl) = walk_decl cb' (h c) decl := by
  simp only [walk_decl]
  rw [hs.post_decl, walk_decl_inner_sim hs (cb.pre_decl c decl) decl, hs.pre_decl]
termination_by (sizeOf decl, 1)

theorem walk_decl_inner_sim (hs : Sim cb cb' h) (c : C) (decl : Decl) :
    h (walk_decl_inner cb c decl) = walk_decl_inner cb' (h c) decl := by
  cases decl with
  | FunDecl f =>
    simp only [walk_decl_inner]
    exact walk_fun_sim hs c f
  | LetDecl dtors =>
    simp only [walk_decl_inner]
    exact walk_var_sim hs c dtors
  | ConstDecl dtors =>
    simp only [walk_decl_inner]
    exact walk_const_dtors_sim hs c dtors
termination_by (sizeOf decl, 0)

theorem walk_var_sim (hs : Sim cb cb' h) (c : C) (dtors : List Dtor) :
    h (walk_var cb c dtors) = walk_var cb' (h c) dtors := by
  cases dtors with
  | nil => simp only [walk_var]
  | cons dtor rest =>
    simp only [walk_var]
    rw [walk_var_sim hs (walk_dtor cb c dtor) rest, walk_dtor_sim hs c dtor]
termination_by (sizeOf dtors, 0)

theorem walk_dtor_sim (hs : Sim cb cb' h) (c : C) (dtor : Dtor) :
    h (walk_dtor cb c dtor) = walk_dtor cb' (h c) dtor := by
  cases dtor with
  | Simple id init =>
    cases init with
    | none => simp only [walk_dtor]
    | some e =>
      simp only [walk_dtor]
      exact walk_expr_sim hs c e
  | Compound patt value => simp only [walk_dtor]
termination_by (sizeOf dtor, 0)

theorem walk_const_dtors_sim (hs : Sim cb cb' h) (c : C) (dtors : List ConstDtor) :
    h (walk_const_dtors cb c dtors) = walk_const_dtors cb' (h c) dtors := by
  cases dtors with
  | nil => simp only [walk_const_dtors]
  | cons dtor rest =>
    cases dtor with
    | mk patt value =>
      simp only [walk_const_dtors, walk_patt]
      rw [walk_const_dtors_sim hs (walk_expr cb c value) rest, walk_expr_sim hs c value]
termination_by (sizeOf dtors, 0)

theorem walk_expr_sim (hs : Sim cb cb' h) (c : C) (expr : Expr) :
    h (walk_expr cb c expr) = walk_expr cb' (h c) expr := by
  simp only [walk_expr]
  rw [hs.post_expr, walk_expr_inner_sim hs (cb.pre_expr c expr) expr, hs.pre_expr]
termination_by (sizeOf expr, 1)

theorem walk_expr_inner_sim (hs : Sim cb cb' h) (c : C) (expr : Expr) :
    h (walk_expr_inner cb c expr) = walk_expr_inner cb' (h c) expr := by
  cases expr with
  | Call callee args =>
    simp only [walk_expr_inner]
    rw [walk_args_sim hs (walk_expr cb c callee) args, walk_expr_sim hs c callee]
  | Seq exprs =>
    simp only [walk_expr_inner]
    exact walk_exprs_sim hs c exprs
  | Arr elements =>
    simp only [walk_expr_inner]
    exact walk_elements_sim hs c elements
  | Obj properties =>
    simp only [walk_expr_inner]
    exact walk_props_sim hs c properties
  | Fun f =>
    simp only [walk_expr_inner]
    exact walk_fun_sim hs c f
  | Binop op a b =>
    simp only [walk_expr_inner]
    rw [walk_expr_sim hs (walk_expr cb c a) b, walk_expr_sim hs c a]
  | Logop op a b =>
    simp only [walk_expr_inner]
    rw [walk_expr_sim hs (walk_expr cb c a) b, walk_expr_sim hs c a]
  | Unop op e =>
    simp only [walk_expr_inner]
    exact walk_expr_sim hs c e
  | PreInc target =>
    simp only [walk_expr_inner]
    exact walk_assign_target_sim hs c target
  | PostInc target =>
    simp only [walk_expr_inner]
    exact walk_assign_target_sim hs c target
  | PreDec target =>
    simp only [walk_expr_inner]
    exact walk_assign_target_sim hs c target
  | PostDec target =>
    simp only [walk_expr_inner]
    exact walk_assign_target_sim hs c target
  | Assign target value =>
    simp only [walk_expr_inner, walk_patt]
    exact walk_expr_sim hs c value
  | BinAssign op target value =>
    simp only [walk_expr_inner]
    rw [walk_expr_sim hs (walk_assign_target cb c target) value,
      walk_assign_target_sim hs c target]
  | Cond cond cons alt =>
    simp only [walk_expr_inner]
    rw [walk_expr_sim hs (walk_expr cb (walk_expr cb c cond) cons) alt,
      walk_expr_sim hs (walk_expr cb c cond) cons, walk_expr_sim hs c cond]
  | Dot object property =>
    simp only [walk_expr_inner]
    exact walk_expr_sim hs c object
  | Brack object property =>
    simp only [walk_expr_inner]
    rw [walk_expr_sim hs (walk_expr cb c object) property, walk_expr_sim hs c object]
  | Id name => simp only [walk_expr_inner]
  | New callee args => simp only [walk_expr_inner]
  | Other tag => simp only [walk_expr_inner]
termination_by (sizeOf expr, 0)

theorem walk_args_sim (hs : Sim cb cb' h) (c : C) (args : List ExprListItem) :
    h (walk_args cb c args) = walk_args cb' (h c) args := by
  cases args with
  | nil => simp only [walk_args]
  | cons item rest =>
    cases item with
    | Expr e =>
      simp only [walk_args]
      rw [walk_args_sim hs (walk_expr cb c e) rest, walk_expr_sim hs c e]
    | Spread e =>
      simp only [walk_args]
      rw [walk_args_sim hs (walk_expr cb c e) rest, walk_expr_sim hs c e]
termination_by (sizeOf args, 0)

theorem walk_exprs_sim (hs : Sim cb cb' h) (c : C) (exprs : List Expr) :
    h (walk_exprs cb c exprs) = walk_exprs cb' (h c) exprs := by
  cases exprs with
  | nil => simp only [walk_exprs]
  | cons e rest =>
    simp only [walk_exprs]
    rw [walk_exprs_sim hs (walk_expr cb c e) rest, walk_expr_sim hs c e]
termination_by (sizeOf exprs, 0)

theorem walk_elements_sim (hs : Sim cb cb' h) (c : C) (els : List (Option ExprListItem)) :
    h (walk_elements cb c els) = walk_elements cb' (h c) els := by
  cases els with
  | nil => simp only [walk_elements]
  | cons el rest =>
    cases el with
    | none =>
      simp only [walk_elements]
      exact walk_elements_sim hs c rest
    | some item =>
      cases item with
      | Expr e =>
        simp only [walk_elements]
        rw [walk_elements_sim hs (walk_expr cb c e) rest, walk_expr_sim hs c e]
      | Spread e =>
        simp only [walk_elements]
        rw [walk_elements_sim hs (walk_expr cb c e) rest, walk_expr_sim hs c e]
termination_by (sizeOf els, 0)

theorem walk_props_sim (hs : Sim cb cb' h) (c : C) (props : List Prop') :
    h (walk_props cb c props) = walk_props cb' (h c) props := by
  cases props with
  | nil => simp only [walk_props]
  | cons prop rest =>
    simp only [walk_props]
    rw [walk_props_sim hs (walk_prop cb c prop) rest, walk_prop_sim hs c prop]
termination_by (sizeOf props, 0)

theorem walk_prop_sim (hs : Sim cb cb' h) (c : C) (prop : Prop') :
    h (walk_prop cb c prop) = walk_prop cb' (h c) prop := by
  cases prop with
  | Regular key val =>
    cases val with
    | Init value =>
      simp only [walk_prop]
      exact walk_expr_sim hs c value
    | Get body =>
      cases body with
      | mk items =>
        simp only [walk_prop]
        exact walk_items_sim hs c items
    | Set param body =>
      cases body with
      | mk items =>
        simp only [walk_prop]
        exact walk_items_sim hs c items
  | Method f =>
    simp only [walk_prop]
    exact walk_fun_sim hs c f
  | Shorthand id => simp only [walk_prop]
termination_by (sizeOf prop, 0)

theorem walk_assign_target_sim (hs : Sim cb cb' h) (c : C) (target : AssignTarget) :
    h (walk_assign_target cb c target) = walk_assign_target cb' (h c) target := by
  cases target with
  | Id name => simp only [walk_assign_target]
  | Dot object property =>
    simp only [walk_assign_target]
    exact walk_expr_sim hs c object
  | Brack object property =>
    simp only [walk_assign_target]
    rw [walk_expr_sim hs (walk_expr cb c object) property, walk_expr_sim hs c object]
termination_by (sizeOf target, 0)

theorem walk_fun_sim (hs : Sim cb cb' h) (c : C) (f : Fun) :
    h (walk_fun cb c f) = walk_fun cb' (h c) f := by
  cases f with
  | mk i p body =>
    cases body with
    | mk items =>
      simp only [walk_fun]
      rw [hs.post_fun, walk_items_sim hs (cb.pre_fun c (.mk i p (.mk items))) items,
        hs.pre_fun]
termination_by (sizeOf f, 0)

end

/-- Transporting a whole walk along a hook-commuting `h`. -/
theorem walk_script_sim (hs : Sim cb cb' h) (c : C) (ast : Script) :
    h (walk_script cb c ast) = walk_script cb' (h c) ast := by
  cases ast with
  | mk items =>
    simp only [walk_script]
    rw [hs.post_script, walk_items_sim hs (cb.pre_script c (.mk items)) items, hs.pre_script]

/-- Prepending a fixed event prefix commutes with every tracing hook. -/
theorem traceSim (c0 : List Event) :
    Sim traceCallbacks traceCallbacks (fun t => c0 ++ t) := by
  constructor <;> intro c n <;> simp [traceCallbacks]

theorem walk_items_hom (c : List Event) (items : List StmtListItem) :
    walk_items traceCallbacks c items = c ++ itemsTrace items := by
  have := walk_items_sim (traceSim c) [] items
  simp only [List.append_nil] at this
  exact this.symm

theorem walk_stmt_item_hom (c : List Event) (item : StmtListItem) :
    walk_stmt_item traceCallbacks c item = c ++ itemTrace item := by
  have := walk_stmt_item_sim (traceSim c) [] item
  simp only [List.append_nil] at this
  exact this.symm

theorem walk_stmt_hom (c : List Event) (s : Stmt) :
    walk_stmt traceCallbacks c s = c ++ stmtTrace s := by
  have := walk_stmt_sim (traceSim c) [] s
  simp only [List.append_nil] at this
  exact this.symm

theorem walk_stmt_inner_hom (c : List Event) (s : Stmt) :
    walk_stmt_inner traceCallbacks c s = c ++ stmtInnerTrace s := by
  have := walk_stmt_inner_sim (traceSim c) [] s
  simp only [List.append_nil] at this
  exact this.symm

theorem walk_cases_hom (c : List Event) (cs : List Case) :
    walk_cases traceCallbacks c cs = c ++ casesTrace cs := by
  have := walk_cases_sim (traceSim c) [] cs
  simp only [List.append_nil] at this
  exact this.symm

theorem walk_decl_hom (c : List Event) (d : Decl) :
    walk_decl traceCallbacks c d = c ++ declTrace d := by
  have := walk_decl_sim (traceSim c) [] d
  simp only [List.append_nil] at this
  exact this.symm

theorem walk_decl_inner_hom (c : List Event) (d : Decl) :
    walk_decl_inner traceCallbacks c d = c ++ declInnerTrace d := by
  have := walk_decl_inner_sim (traceSim c) [] d
  simp only [List.append_nil] at this
  exact this.symm

theorem walk_var_hom (c : List Event) (ds : List Dtor) :
    walk_var traceCallbacks c ds = c ++ varTrace ds := by
  have := walk_var_sim (traceSim c) [] ds
  simp only [List.append_nil] at this
  exact this.symm

theorem walk_dtor_hom (c : List Event) (d : Dtor) :
    walk_dtor traceCallbacks c d = c ++ dtorTrace d := by
  have := walk_dtor_sim (traceSim c) [] d
  simp only [List.append_nil] at this
  exact this.symm

theorem walk_const_dtors_hom (c : List Event) (ds : List ConstDtor) :
    walk_const_dtors traceCallbacks c ds = c ++ constDtorsTrace ds := by
  have := walk_const_dtors_sim (traceSim c) [] ds
  simp only [List.append_nil] at this
  exact this.symm

theorem walk_expr_hom (c : List Event) (e : Expr) :
    walk_expr traceCallbacks c e = c ++ exprTrace e := by
  have := walk_expr_sim (traceSim c) [] e
  simp only [List.append_nil] at this
  exact this.symm

theorem walk_expr_inner_hom (c : List Event) (e : Expr) :
    walk_expr_inner traceCallbacks c e = c ++ exprInnerTrace e := by
  have := walk_expr_inner_sim (traceSim c) [] e
  simp only [List.append_nil] at this
  exact this.symm

theorem walk_args_hom (c : List Event) (args : List ExprListItem) :
    walk_args traceCallbacks c args = c ++ argsTrace args := by
  have := walk_args_sim (traceSim c) [] args
  simp only [List.append_nil] at this
  exact this.symm

theorem walk_exprs_hom (c : List Event) (es : List Expr) :
    walk_exprs traceCallbacks c es = c ++ exprsTrace es := by
  have := walk_exprs_sim (traceSim c) [] es
  simp only [List.append_nil] at this
  exact this.symm

theorem walk_elements_hom (c : List Event) (els : List (Option ExprListItem)) :
    walk_elements traceCallbacks c els = c ++ elementsTrace els := by
  have := walk_elements_sim (traceSim c) [] els
  simp only [List.append_nil] at this
  exact this.symm

theorem walk_props_hom (c : List Event) (ps : List Prop') :
    walk_props traceCallbacks c ps = c ++ propsTrace ps := by
  have := walk_props_sim (traceSim c) [] ps
  simp only [List.append_nil] at this
  exact this.symm

theorem walk_prop_hom (c : List Event) (p : Prop') :
    walk_prop traceCallbacks c p = c ++ propTrace p := by
  have := walk_prop_sim (traceSim c) [] p
  simp only [List.append_nil] at this
  exact this.symm

theorem walk_assign_target_hom (c : List Event) (t : AssignTarget) :
    walk_assign_target traceCallbacks c t = c ++ targetTrace t := by
  have := walk_assign_target_sim (traceSim c) [] t
  simp only [List.append_nil] at this
  exact this.symm

theorem walk_fun_hom (c : List Event) (f : Fun) :
    walk_fun traceCallbacks c f = c ++ funTrace f := by
  have := walk_fun_sim (traceSim c) [] f
  simp only [List.append_nil] at this
  exact this.symm

theorem walk_script_hom (c : List Event) (ast : Script) :
    walk_script traceCallbacks c ast = c ++ scriptTrace ast := by
  have := walk_script_sim (traceSim c) [] ast
  simp only [List.append_nil] at this
  exact this.symm

/-- Trace of an optional child: a present child contributes its trace, an
absent one nothing. -/
def optTrace {α : Type} (f : α → List Event) : Option α → List Event
  | some x => f x
  | none => []

@[simp] theorem optTrace_some {α : Type} (f : α → List Event) (x : α) :
    optTrace f (some x) = f x := rfl

@[simp] theorem optTrace_none {α : Type} (f : α → List Event) :
    optTrace f none = [] := rfl

/-- Trace of a catch clause: its body's items; the parameter pattern is not
traversed. -/
def catchTrace : Catch → List Event
  | .mk _ (.mk items) => itemsTrace items

@[simp] theorem scriptTrace_eq (items : List StmtListItem) :
    scriptTrace (.mk items) =
      .enterScript (.mk items) :: (itemsTrace items ++ [.exitScript (.mk items)]) := by
  show walk_script traceCallbacks [] (.mk items) = _
  simp only [walk_script]
  simp [walk_items_hom]

@[simp] theorem stmtTrace_eq (s : Stmt) :
    stmtTrace s = .enterStmt s :: (stmtInnerTrace s ++ [.exitStmt s]) := by
  show walk_stmt traceCallbacks [] s = _
  simp only [walk_stmt]
  simp [walk_stmt_inner_hom]

@[simp] theorem declTrace_eq (d : Decl) :
    declTrace d = .enterDecl d :: (declInnerTrace d ++ [.exitDecl d]) := by
  show walk_decl traceCallbacks [] d = _
  simp only [walk_decl]
  simp [walk_decl_inner_hom]

@[simp] theorem exprTrace_eq (e : Expr) :
    exprTrace e = .enterExpr e :: (exprInnerTrace e ++ [.exitExpr e]) := by
  show walk_expr traceCallbacks [] e = _
  simp only [walk_expr]
  simp [walk_expr_inner_hom]

@[simp] theorem funTrace_eq (f : Fun) :
    funTrace f = .enterFun f :: (itemsTrace f.body.items ++ [.exitFun f]) := by
  cases f with
  | mk i p body =>
    cases body with
    | mk items =>
      show walk_fun traceCallbacks [] (.mk i p (.mk items)) = _
      simp only [walk_fun]
      simp [walk_items_hom, Fun.body, Script.items]

@[simp] theorem itemsTrace_nil : itemsTrace ([] : List StmtListItem) = [] := by
  simp [itemsTrace, walk_items]

@[simp] theorem itemsTrace_cons (i : StmtListItem) (rest : List StmtListItem) :
    itemsTrace (i :: rest) = itemTrace i ++ itemsTrace rest := by
  show walk_items traceCallbacks [] (i :: rest) = _
  simp only [walk_items]
  simp [walk_items_hom, walk_stmt_item_hom]

@[simp] theorem itemTrace_stmt (s : Stmt) : itemTrace (.Stmt s) = stmtTrace s := by
  show walk_stmt_item traceCallbacks [] (.Stmt s) = _
  simp only [walk_stmt_item]
  rfl

@[simp] theorem itemTrace_decl (d : Decl) : itemTrace (.Decl d) = declTrace d := by
  show walk_stmt_item traceCallbacks [] (.Decl d) = _
  simp only [walk_stmt_item]
  rfl

@[simp] theorem stmtInnerTrace_block (items : List StmtListItem) :
    stmtInnerTrace (.Block items) = itemsTrace items := by
  show walk_stmt_inner traceCallbacks [] (.Block items) = _
  simp only [walk_stmt_inner]
  rfl

@[simp] theorem stmtInnerTrace_var (dtors : List Dtor) :
    stmtInnerTrace (.Var dtors) = varTrace dtors := by
  show walk_stmt_inner traceCallbacks [] (.Var dtors) = _
  simp only [walk_stmt_inner]
  rfl

@[simp] theorem stmtInnerTrace_expr (e : Expr) :
    stmtInnerTrace (.Expr e) = exprTrace e := by
  show walk_stmt_inner traceCallbacks [] (.Expr e) = _
  simp only [walk_stmt_inner]
  rfl

@[simp] theorem stmtInnerTrace_if (cond : Expr) (cons : Stmt) (alt : Option Stmt) :
    stmtInnerTrace (.If cond cons alt) =
      exprTrace cond ++ (stmtTrace cons ++ optTrace stmtTrace alt) := by
  show walk_stmt_inner traceCallbacks [] (.If cond cons alt) = _
  cases alt with
  | none =>
    simp only [walk_stmt_inner]
    simp [walk_stmt_hom, walk_expr_hom]
  | some a =>
    simp only [walk_stmt_inner]
    simp [walk_stmt_hom, walk_expr_hom]

@[simp] theorem stmtInnerTrace_label (name : String) (body : Stmt) :
    stmtInnerTrace (.Label name body) = stmtTrace body := by
  show walk_stmt_inner traceCallbacks [] (.Label name body) = _
  simp only [walk_stmt_inner]
  rfl

@[simp] theorem stmtInnerTrace_switch (cond : Expr) (cases' : List Case) :
    stmtInnerTrace (.Switch cond cases') = exprTrace cond ++ casesTrace cases' := by
  show walk_stmt_inner traceCallbacks [] (.Switch cond cases') = _
  simp only [walk_stmt_inner]
  simp [walk_cases_hom, walk_expr_hom]

@[simp] theorem stmtInnerTrace_return (arg : Option Expr) :
    stmtInnerTrace (.Return arg) = optTrace exprTrace arg := by
  show walk_stmt_inner traceCallbacks [] (.Return arg) = _
  cases arg with
  | none => simp only [walk_stmt_inner]; rfl
  | some a => simp only [walk_stmt_inner]; rfl

@[simp] theorem stmtInnerTrace_throw (arg : Expr) :
    stmtInnerTrace (.Throw arg) = exprTrace arg := by
  show walk_stmt_inner traceCallbacks [] (.Throw arg) = _
  simp only [walk_stmt_inner]
  rfl

@[simp] theorem stmtInnerTrace_try (block : List StmtListItem) (caught : Option Catch)
    (finBlock : Option (List StmtListItem)) :
    stmtInnerTrace (.Try block caught finBlock) =
      itemsTrace block ++ (optTrace catchTrace caught ++ optTrace itemsTrace finBlock) := by
  show walk_stmt_inner traceCallbacks [] (.Try block caught finBlock) = _
  cases caught with
  | none =>
    cases finBlock with
    | none =>
      simp only [walk_stmt_inner]
      simp [walk_items_hom]
    | some fitems =>
      simp only [walk_stmt_inner]
      simp [walk_items_hom]
  | some ct =>
    cases ct with
    | mk param body =>
      cases body with
      | mk bitems =>
        cases finBlock with
        | none =>
          simp only [walk_stmt_inner]
          simp [walk_items_hom, catchTrace]
        | some fitems =>
          simp only [walk_stmt_inner]
          simp [walk_items_hom, catchTrace]

@[simp] theorem stmtInnerTrace_while (cond : Expr) (body : Stmt) :
    stmtInnerTrace (.While cond body) = exprTrace cond ++ stmtTrace body := by
  show walk_stmt_inner traceCallbacks [] (.While cond body) = _
  simp only [walk_stmt_inner]
  simp [walk_stmt_hom, walk_expr_hom]

@[simp] theorem stmtInnerTrace_doWhile (body : Stmt) (cond : Expr) :
    stmtInnerTrace (.DoWhile body cond) = stmtTrace body ++ exprTrace cond := by
  show walk_stmt_inner traceCallbacks [] (.DoWhile body cond) = _
  simp only [walk_stmt_inner]
  simp [walk_stmt_hom, walk_expr_hom]

@[simp] theorem stmtInnerTrace_for (init : Option ForHead) (cond update : Option Expr)
    (body : Stmt) :
    stmtInnerTrace (.For init cond update body) =
      optTrace exprTrace cond ++ (optTrace exprTrace update ++ stmtTrace body) := by
  show walk_stmt_inner traceCallbacks [] (.For init cond update body) = _
  cases cond with
  | none =>
    cases update with
    | none => simp only [walk_stmt_inner]; simp [walk_stmt_hom]
    | some u => simp only [walk_stmt_inner]; simp [walk_stmt_hom, walk_expr_hom]
  | some cd =>
    cases update with
    | none => simp only [walk_stmt_inner]; simp [walk_stmt_hom, walk_expr_hom]
    | some u => simp only [walk_stmt_inner]; simp [walk_stmt_hom, walk_expr_hom]

@[simp] theorem stmtInnerTrace_forIn (head : ForInHead) (iterable : Expr) (body : Stmt) :
    stmtInnerTrace (.ForIn head iterable body) = exprTrace iterable ++ stmtTrace body := by
  show walk_stmt_inner traceCallbacks [] (.ForIn head iterable body) = _
  simp only [walk_stmt_inner]
  simp [walk_stmt_hom, walk_expr_hom]

@[simp] theorem stmtInnerTrace_forOf (head : ForOfHead) (iterable : Expr) (body : Stmt) :
    stmtInnerTrace (.ForOf head iterable body) = exprTrace iterable ++ stmtTrace body := by
  show walk_stmt_inner traceCallbacks [] (.ForOf head iterable body) = _
  simp only [walk_stmt_inner]
  simp [walk_stmt_hom, walk_expr_hom]

@[simp] theorem stmtInnerTrace_other (tag : String) :
    stmtInnerTrace (.Other tag) = [] := by
  show walk_stmt_inner traceCallbacks [] (.Other tag) = _
  simp only [walk_stmt_inner]

@[simp] theorem casesTrace_nil : casesTrace ([] : List Case) = [] := by
  simp [casesTrace, walk_cases]

@[simp] theorem casesTrace_cons (test : Option Expr) (body : List StmtListItem)
    (rest : List Case) :
    casesTrace (.mk test body :: rest) =
      optTrace exprTrace test ++ (itemsTrace body ++ casesTrace rest) := by
  show walk_cases traceCallbacks [] (.mk test body :: rest) = _
  cases test with
  | none =>
    simp only [walk_cases]
    simp [walk_cases_hom, walk_items_hom]
  | some t =>
    simp only [walk_cases]
    simp [walk_cases_hom, walk_items_hom, walk_expr_hom]

@[simp] theorem declInnerTrace_fun (f : Fun) :
    declInnerTrace (.FunDecl f) = funTrace f := by
  show walk_decl_inner traceCallbacks [] (.FunDecl f) = _
  simp only [walk_decl_inner]
  rfl

@[simp] theorem declInnerTrace_let (dtors : List Dtor) :
    declInnerTrace (.LetDecl dtors) = varTrace dtors := by
  show walk_decl_inner traceCallbacks [] (.LetDecl dtors) = _
  simp only [walk_decl_inner]
  rfl

@[simp] theorem declInnerTrace_const (dtors : List ConstDtor) :
    declInnerTrace (.ConstDecl dtors) = constDtorsTrace dtors := by
  show walk_decl_inner traceCallbacks [] (.ConstDecl dtors) = _
  simp only [walk_decl_inner]
  rfl

@[simp] theorem varTrace_nil : varTrace ([] : List Dtor) = [] := by
  simp [varTrace, walk_var]

@[simp] theorem varTrace_cons (d : Dtor) (rest : List Dtor) :
    varTrace (d :: rest) = dtorTrace d ++ varTrace rest := by
  show walk_var traceCallbacks [] (d :: rest) = _
  simp only [walk_var]
  simp [walk_var_hom, walk_dtor_hom]

@[simp] theorem dtorTrace_simple_some (id : String) (e : Expr) :
    dtorTrace (.Simple id (some e)) = exprTrace e := by
  show walk_dtor traceCallbacks [] (.Simple id (some e)) = _
  simp only [walk_dtor]
  rfl

@[simp] theorem dtorTrace_simple_none (id : String) :
    dtorTrace (.Simple id none) = [] := by
  show walk_dtor traceCallbacks [] (.Simple id none) = _
  simp only [walk_dtor]

@[simp] theorem dtorTrace_compound (patt : Patt) (value : Expr) :
    dtorTrace (.Compound patt value) = [] := by
  show walk_dtor traceCallbacks [] (.Compound patt value) = _
  simp only [walk_dtor]

@[simp] theorem constDtorsTrace_nil : constDtorsTrace ([] : List ConstDtor) = [] := by
  simp [constDtorsTrace, walk_const_dtors]

@[simp] theorem constDtorsTrace_cons (patt : Patt) (value : Expr) (rest : List ConstDtor) :
    constDtorsTrace (.mk patt value :: rest) = exprTrace value ++ constDtorsTrace rest := by
  show walk_const_dtors traceCallbacks [] (.mk patt value :: rest) = _
  simp only [walk_const_dtors, walk_patt]
  simp [walk_const_dtors_hom, walk_expr_hom]

@[simp] theorem exprInnerTrace_call (callee : Expr) (args : List ExprListItem) :
    exprInnerTrace (.Call callee args) = exprTrace callee ++ argsTrace args := by
  show walk_expr_inner traceCallbacks [] (.Call callee args) = _
  simp only [walk_expr_inner]
  simp [walk_args_hom, walk_expr_hom]

@[simp] theorem exprInnerTrace_seq (exprs : List Expr) :
    exprInnerTrace (.Seq exprs) = exprsTrace exprs := by
  show walk_expr_inner traceCallbacks [] (.Seq exprs) = _
  simp only [walk_expr_inner]
  rfl

@[simp] theorem exprInnerTrace_arr (els : List (Option ExprListItem)) :
    exprInnerTrace (.Arr els) = elementsTrace els := by
  show walk_expr_inner traceCallbacks [] (.Arr els) = _
  simp only [walk_expr_inner]
  rfl

@[simp] theorem exprInnerTrace_obj (ps : List Prop') :
    exprInnerTrace (.Obj ps) = propsTrace ps := by
  show walk_expr_inner traceCallbacks [] (.Obj ps) = _
  simp only [walk_expr_inner]
  rfl

@[simp] theorem exprInnerTrace_fun (f : Fun) :
    exprInnerTrace (.Fun f) = funTrace f := by
  show walk_expr_inner traceCallbacks [] (.Fun f) = _
  simp only [walk_expr_inner]
  rfl

@[simp] theorem exprInnerTrace_binop (op : String) (a b : Expr) :
    exprInnerTrace (.Binop op a b) = exprTrace a ++ exprTrace b := by
  show walk_expr_inner traceCallbacks [] (.Binop op a b) = _
  simp only [walk_expr_inner]
  simp [walk_expr_hom]

@[simp] theorem exprInnerTrace_logop (op : String) (a b : Expr) :
    exprInnerTrace (.Logop op a b) = exprTrace a ++ exprTrace b := by
  show walk_expr_inner traceCallbacks [] (.Logop op a b) = _
  simp only [walk_expr_inner]
  simp [walk_expr_hom]

@[simp] theorem exprInnerTrace_unop (op : String) (e : Expr) :
    exprInnerTrace (.Unop op e) = exprTrace e := by
  show walk_expr_inner traceCallbacks [] (.Unop op e) = _
  simp only [walk_expr_inner]
  rfl

@[simp] theorem exprInnerTrace_preInc (t : AssignTarget) :
    exprInnerTrace (.PreInc t) = targetTrace t := by
  show walk_expr_inner traceCallbacks [] (.PreInc t) = _
  simp only [walk_expr_inner]
  rfl

@[simp] theorem exprInnerTrace_postInc (t : AssignTarget) :
    exprInnerTrace (.PostInc t) = targetTrace t := by
  show walk_expr_inner traceCallbacks [] (.PostInc t) = _
  simp only [walk_expr_inner]
  rfl

@[simp] theorem exprInnerTrace_preDec (t : AssignTarget) :
    exprInnerTrace (.PreDec t) = targetTrace t := by
  show walk_expr_inner traceCallbacks [] (.PreDec t) = _
  simp only [walk_expr_inner]
  rfl

@[simp] theorem exprInnerTrace_postDec (t : AssignTarget) :
    exprInnerTrace (.PostDec t) = targetTrace t := by
  show walk_expr_inner traceCallbacks [] (.PostDec t) = _
  simp only [walk_expr_inner]
  rfl

@[simp] theorem exprInnerTrace_assign (target : Patt) (value : Expr) :
    exprInnerTrace (.Assign target value) = exprTrace value := by
  show walk_expr_inner traceCallbacks [] (.Assign target value) = _
  simp only [walk_expr_inner, walk_patt]
  rfl

@[simp] theorem exprInnerTrace_binAssign (op : String) (target : AssignTarget) (value : Expr) :
    exprInnerTrace (.BinAssign op target value) = targetTrace target ++ exprTrace value := by
  show walk_expr_inner traceCallbacks [] (.BinAssign op target value) = _
  simp only [walk_expr_inner]
  simp [walk_expr_hom, walk_assign_target_hom]

@[simp] theorem exprInnerTrace_cond (cond cons alt : Expr) :
    exprInnerTrace (.Cond cond cons alt) =
      exprTrace cond ++ (exprTrace cons ++ exprTrace alt) := by
  show walk_expr_inner traceCallbacks [] (.Cond cond cons alt) = _
  simp only [walk_expr_inner]
  simp [walk_expr_hom]

@[simp] theorem exprInnerTrace_dot (object : Expr) (property : String) :
    exprInnerTrace (.Dot object property) = exprTrace object := by
  show walk_expr_inner traceCallbacks [] (.Dot object property) = _
  simp only [walk_expr_inner]
  rfl

@[simp] theorem exprInnerTrace_brack (object property : Expr) :
    exprInnerTrace (.Brack object property) = exprTrace object ++ exprTrace property := by
  show walk_expr_inner traceCallbacks [] (.Brack object property) = _
  simp only [walk_expr_inner]
  simp [walk_expr_hom]

@[simp] theorem exprInnerTrace_id (name : String) :
    exprInnerTrace (.Id name) = [] := by
  show walk_expr_inner traceCallbacks [] (.Id name) = _
  simp only [walk_expr_inner]

@[simp] theorem exprInnerTrace_new (callee : Expr) (args : List ExprListItem) :
    exprInnerTrace (.New callee args) = [] := by
  show walk_expr_inner traceCallbacks [] (.New callee args) = _
  simp only [walk_expr_inner]

@[simp] theorem exprInnerTrace_other (tag : String) :
    exprInnerTrace (.Other tag) = [] := by
  show walk_expr_inner traceCallbacks [] (.Other tag) = _
  simp only [walk_expr_inner]

@[simp] theorem argsTrace_nil : argsTrace ([] : List ExprListItem) = [] := by
  simp [argsTrace, walk_args]

@[simp] theorem argsTrace_expr (e : Expr) (rest : List ExprListItem) :
    argsTrace (.Expr e :: rest) = exprTrace e ++ argsTrace rest := by
  show walk_args traceCallbacks [] (.Expr e :: rest) = _
  simp only [walk_args]
  simp [walk_args_hom, walk_expr_hom]

@[simp] theorem argsTrace_spread (e : Expr) (rest : List ExprListItem) :
    argsTrace (.Spread e :: rest) = exprTrace e ++ argsTrace rest := by
  show walk_args traceCallbacks [] (.Spread e :: rest) = _
  simp only [walk_args]
  simp [walk_args_hom, walk_expr_hom]

@[simp] theorem exprsTrace_nil : exprsTrace ([] : List Expr) = [] := by
  simp [exprsTrace, walk_exprs]

@[simp] theorem exprsTrace_cons (e : Expr) (rest : List Expr) :
    exprsTrace (e :: rest) = exprTrace e ++ exprsTrace rest := by
  show walk_exprs traceCallbacks [] (e :: rest) = _
  simp only [walk_exprs]
  simp [walk_exprs_hom, walk_expr_hom]

@[simp] theorem elementsTrace_nil : elementsTrace ([] : List (Option ExprListItem)) = [] := by
  simp [elementsTrace, walk_elements]

@[simp] theorem elementsTrace_none (rest : List (Option ExprListItem)) :
    elementsTrace (none :: rest) = elementsTrace rest := by
  show walk_elements traceCallbacks [] (none :: rest) = _
  simp only [walk_elements]
  rfl

@[simp] theorem elementsTrace_expr (e : Expr) (rest : List (Option ExprListItem)) :
    elementsTrace (some (.Expr e) :: rest) = exprTrace e ++ elementsTrace rest := by
  show walk_elements traceCallbacks [] (some (.Expr e) :: rest) = _
  simp only [walk_elements]
  simp [walk_elements_hom, walk_expr_hom]

@[simp] theorem elementsTrace_spread (e : Expr) (rest : List (Option ExprListItem)) :
    elementsTrace (some (.Spread e) :: rest) = exprTrace e ++ elementsTrace rest := by
  show walk_elements traceCallbacks [] (some (.Spread e) :: rest) = _
  simp only [walk_elements]
  simp [walk_elements_hom, walk_expr_hom]

@[simp] theorem propsTrace_nil : propsTrace ([] : List Prop') = [] := by
  simp [propsTrace, walk_props]

@[simp] theorem propsTrace_cons (p : Prop') (rest : List Prop') :
    propsTrace (p :: rest) = propTrace p ++ propsTrace rest := by
  show walk_props traceCallbacks [] (p :: rest) = _
  simp only [walk_props]
  simp [walk_props_hom, walk_prop_hom]

@[simp] theorem propTrace_init (key : String) (value : Expr) :
    propTrace (.Regular key (.Init value)) = exprTrace value := by
  show walk_prop traceCallbacks [] (.Regular key (.Init value)) = _
  simp only [walk_prop]
  rfl

@[simp] theorem propTrace_get (key : String) (items : List StmtListItem) :
    propTrace (.Regular key (.Get (.mk items))) = itemsTrace items := by
  show walk_prop traceCallbacks [] (.Regular key (.Get (.mk items))) = _
  simp only [walk_prop]
  rfl

@[simp] theorem propTrace_set (key : String) (param : Patt) (items : List StmtListItem) :
    propTrace (.Regular key (.Set param (.mk items))) = itemsTrace items := by
  show walk_prop traceCallbacks [] (.Regular key (.Set param (.mk items))) = _
  simp only [walk_prop]
  rfl

@[simp] theorem propTrace_method (f : Fun) :
    propTrace (.Method f) = funTrace f := by
  show walk_prop traceCallbacks [] (.Method f) = _
  simp only [walk_prop]
  rfl

@[simp] theorem propTrace_shorthand (id : String) :
    propTrace (.Shorthand id) = [] := by
  show walk_prop traceCallbacks [] (.Shorthand id) = _
  simp only [walk_prop]

@[simp] theorem targetTrace_id (name : String) :
    targetTrace (.Id name) = [] := by
  show walk_assign_target traceCallbacks [] (.Id name) = _
  simp only [walk_assign_target]

@[simp] theorem targetTrace_dot (object : Expr) (property : String) :
    targetTrace (.Dot object property) = exprTrace object := by
  show walk_assign_target traceCallbacks [] (.Dot object property) = _
  simp only [walk_assign_target]
  rfl

@[simp] theorem targetTrace_brack (object property : Expr) :
    targetTrace (.Brack object property) = exprTrace object ++ exprTrace property := by
  show walk_assign_target traceCallbacks [] (.Brack object property) = _
  simp only [walk_assign_target]
  simp [walk_expr_hom]

@[simp] theorem isEnter_enterScript (cat : Cat) (n : Script) :
    isEnter cat (.enterScript n) = decide (cat = Cat.script) := by cases cat <;> rfl

@[simp] theorem isEnter_enterStmt (cat : Cat) (n : Stmt) :
    isEnter cat (.enterStmt n) = decide (cat = Cat.stmt) := by cases cat <;> rfl

@[simp] theorem isEnter_enterExpr (cat : Cat) (n : Expr) :
    isEnter cat (.enterExpr n) = decide (cat = Cat.expr) := by cases cat <;> rfl

@[simp] theorem isEnter_enterDecl (cat : Cat) (n : Decl) :
    isEnter cat (.enterDecl n) = decide (cat = Cat.decl) := by cases cat <;> rfl

@[simp] theorem isEnter_enterFun (cat : Cat) (n : Fun) :
    isEnter cat (.enterFun n) = decide (cat = Cat.fn) := by cases cat <;> rfl

@[simp] theorem isEnter_exitScript (cat : Cat) (n : Script) :
    isEnter cat (.exitScript n) = false := by cases cat <;> rfl

@[simp] theorem isEnter_exitStmt (cat : Cat) (n : Stmt) :
    isEnter cat (.exitStmt n) = false := by cases cat <;> rfl

@[simp] theorem isEnter_exitExpr (cat : Cat) (n : Expr) :
    isEnter cat (.exitExpr n) = false := by cases cat <;> rfl

@[simp] theorem isEnter_exitDecl (cat : Cat) (n : Decl) :
    isEnter cat (.exitDecl n) = false := by cases cat <;> rfl

@[simp] theorem isEnter_exitFun (cat : Cat) (n : Fun) :
    isEnter cat (.exitFun n) = false := by cases cat <;> rfl

@[simp] theorem isExit_exitScript (cat : Cat) (n : Script) :
    isExit cat (.exitScript n) = decide (cat = Cat.script) := by cases cat <;> rfl

@[simp] theorem isExit_exitStmt (cat : Cat) (n : Stmt) :
    isExit cat (.exitStmt n) = decide (cat = Cat.stmt) := by cases cat <;> rfl

@[simp] theorem isExit_exitExpr (cat : Cat) (n : Expr) :
    isExit cat (.exitExpr n) = decide (cat = Cat.expr) := by cases cat <;> rfl

@[simp] theorem isExit_exitDecl (cat : Cat) (n : Decl) :
    isExit cat (.exitDecl n) = decide (cat = Cat.decl) := by cases cat <;> rfl

@[simp] theorem isExit_exitFun (cat : Cat) (n : Fun) :
    isExit cat (.exitFun n) = decide (cat = Cat.fn) := by cases cat <;> rfl

@[simp] theorem isExit_enterScript (cat : Cat) (n : Script) :
    isExit cat (.enterScript n) = false := by cases cat <;> rfl

@[simp] theorem isExit_enterStmt (cat : Cat) (n : Stmt) :
    isExit cat (.enterStmt n) = false := by cases cat <;> rfl

@[simp] theorem isExit_enterExpr (cat : Cat) (n : Expr) :
    isExit cat (.enterExpr n) = false := by cases cat <;> rfl

@[simp] theorem isExit_enterDecl (cat : Cat) (n : Decl) :
    isExit cat (.enterDecl n) = false := by cases cat <;> rfl

@[simp] theorem isExit_enterFun (cat : Cat) (n : Fun) :
    isExit cat (.enterFun n) = false := by cases cat <;> rfl

@[simp] theorem countEnter_nil (cat : Cat) : countEnter cat [] = 0 := rfl

@[simp] theorem countEnter_cons (cat : Cat) (e : Event) (t : List Event) :
    countEnter cat (e :: t) = countEnter cat t + (if isEnter cat e then 1 else 0) := by
  simp [countEnter, List.countP_cons]

@[simp] theorem countEnter_append (cat : Cat) (a b : List Event) :
    countEnter cat (a ++ b) = countEnter cat a + countEnter cat b := by
  simp [countEnter, List.countP_append]

@[simp] theorem countExit_nil (cat : Cat) : countExit cat [] = 0 := rfl

@[simp] theorem countExit_cons (cat : Cat) (e : Event) (t : List Event) :
    countExit cat (e :: t) = countExit cat t + (if isExit cat e then 1 else 0) := by
  simp [countExit, List.countP_cons]

@[simp] theorem countExit_append (cat : Cat) (a b : List Event) :
    countExit cat (a ++ b) = countExit cat a + countExit cat b := by
  simp [countExit, List.countP_append]

/-- Count of an optional child. -/
def opt_count {α : Type} (f : α → Nat) : Option α → Nat
  | some x => f x
  | none => 0

@[simp] theorem opt_count_some {α : Type} (f : α → Nat) (x : α) :
    opt_count f (some x) = f x := rfl

@[simp] theorem opt_count_none {α : Type} (f : α → Nat) : opt_count f none = 0 := rfl

mutual

/-- Number of nodes of category `cat` a walk starting at a `Script`
visits: a structural census of exactly the children the dispatch table
descends into. -/
def script_count (cat : Cat) (ast : Script) : Nat :=
  (if cat = Cat.script then 1 else 0) +
    match ast with
    | .mk items => items_count cat items

def items_count (cat : Cat) (items : List StmtListItem) : Nat :=
  match items with
  | [] => 0
  | i :: rest => item_count cat i + items_count cat rest
termination_by sizeOf items

def item_count (cat : Cat) (item : StmtListItem) : Nat :=
  match item with
  | .Stmt s => stmt_count cat s
  | .Decl d => decl_count cat d
termination_by sizeOf item

def stmt_count (cat : Cat) (s : Stmt) : Nat :=
  (if cat = Cat.stmt then 1 else 0) +
    match s with
    | .Block items => items_count cat items
    | .Var dtors => var_count cat dtors
    | .Expr e => expr_count cat e
    | .If cond cons alt =>
      expr_count cat cond + (stmt_count cat cons +
        match alt with
        | some a => stmt_count cat a
        | none => 0)
    | .Label _ body => stmt_count cat body
    | .Switch cond cases => expr_count cat cond + cases_count cat cases
    | .Return (some arg) => expr_count cat arg
    | .Throw arg => expr_count cat arg
    | .Try block caught finBlock =>
      items_count cat block +
        ((match caught with
          | some ct => catch_count cat ct
          | none => 0) +
          match finBlock with
          | some items => items_count cat items
          | none => 0)
    | .While cond body => expr_count cat cond + stmt_count cat body
    | .DoWhile body cond => stmt_count cat body + expr_count cat cond
    | .For _ cond update body =>
      (match cond with
        | some e => expr_count cat e
        | none => 0) +
        ((match update with
          | some e => expr_count cat e
          | none => 0) + stmt_count cat body)
    | .ForIn _ iterable body => expr_count cat iterable + stmt_count cat body
    | .ForOf _ iterable body => expr_count cat iterable + stmt_count cat body
    | _ => 0
termination_by sizeOf s

def cases_count (cat : Cat) (cs : List Case) : Nat :=
  match cs with
  | [] => 0
  | .mk test body :: rest =>
    (match test with
      | some t => expr_count cat t
      | none => 0) + (items_count cat body + cases_count cat rest)
termination_by sizeOf cs

def catch_count (cat : Cat) (ct : Catch) : Nat :=
  match ct with
  | .mk _ (.mk items) => items_count cat items
termination_by sizeOf ct

def decl_count (cat : Cat) (d : Decl) : Nat :=
  (if cat = Cat.decl then 1 else 0) +
    match d with
    | .FunDecl f => fun_count cat f
    | .LetDecl dtors => var_count cat dtors
    | .ConstDecl dtors => const_dtors_count cat dtors
termination_by sizeOf d

def var_count (cat : Cat) (dtors : List Dtor) : Nat :=
  match dtors with
  | [] => 0
  | d :: rest => dtor_count cat d + var_count cat rest
termination_by sizeOf dtors

def dtor_count (cat : Cat) (d : Dtor) : Nat :=
  match d with
  | .Simple _ (some e) => expr_count cat e
  | _ => 0
termination_by sizeOf d

def const_dtors_count (cat : Cat) (dtors : List ConstDtor) : Nat :=
  match dtors with
  | [] => 0
  | .mk _ value :: rest => expr_count cat value + const_dtors_count cat rest
termination_by sizeOf dtors

def expr_count (cat : Cat) (e : Expr) : Nat :=
  (if cat = Cat.expr then 1 else 0) +
    match e with
    | .Call callee args => expr_count cat callee + args_count cat args
    | .Seq exprs => exprs_count cat exprs
    | .Arr els => elements_count cat els
    | .Obj ps => props_count cat ps
    | .Fun f => fun_count cat f
    | .Binop _ a b => expr_count cat a + expr_count cat b
    | .Logop _ a b => expr_count cat a + expr_count cat b
    | .Unop _ e1 => expr_count cat e1
    | .PreInc t => target_count cat t
    | .PostInc t => target_count cat t
    | .PreDec t => target_count cat t
    | .PostDec t => target_count cat t
    | .Assign _ value => expr_count cat value
    | .BinAssign _ t value => target_count cat t + expr_count cat value
    | .Cond cond cons alt =>
      expr_count cat cond + (expr_count cat cons + expr_count cat alt)
    | .Dot object _ => expr_count cat object
    | .Brack object property => expr_count cat object + expr_count cat property
    | _ => 0
termination_by sizeOf e

def args_count (cat : Cat) (args : List ExprListItem) : Nat :=
  match args with
  | [] => 0
  | .Expr e :: rest => expr_count cat e + args_count cat rest
  | .Spread e :: rest => expr_count cat e + args_count cat rest
termination_by sizeOf args

def exprs_count (cat : Cat) (es : List Expr) : Nat :=
  match es with
  | [] => 0
  | e :: rest => expr_count cat e + exprs_count cat rest
termination_by sizeOf es

def elements_count (cat : Cat) (els : List (Option ExprListItem)) : Nat :=
  match els with
  | [] => 0
  | some (.Expr e) :: rest => expr_count cat e + elements_count cat rest
  | some (.Spread e) :: rest => expr_count cat e + elements_count cat rest
  | none :: rest => elements_count cat rest
termination_by sizeOf els

def props_count (cat : Cat) (ps : List Prop') : Nat :=
  match ps with
  | [] => 0
  | p :: rest => prop_count cat p + props_count cat rest
termination_by sizeOf ps

def prop_count (cat : Cat) (p : Prop') : Nat :=
  match p with
  | .Regular _ (.Init value) => expr_count cat value
  | .Regular _ (.Get (.mk items)) => items_count cat items
  | .Regular _ (.Set _ (.mk items)) => items_count cat items
  | .Method f => fun_count cat f
  | .Shorthand _ => 0
termination_by sizeOf p

def target_count (cat : Cat) (t : AssignTarget) : Nat :=
  match t with
  | .Id _ => 0
  | .Dot object _ => expr_count cat object
  | .Brack object property => expr_count cat object + expr_count cat property
termination_by sizeOf t

def fun_count (cat : Cat) (f : Fun) : Nat :=
  (if cat = Cat.fn then 1 else 0) +
    match f with
    | .mk _ _ (.mk items) => items_count cat items
termination_by sizeOf f

end

mutual

theorem items_count_spec (cat : Cat) (items : List StmtListItem) :
    countEnter cat (itemsTrace items) = items_count cat items ∧
    countExit cat (itemsTrace items) = items_count cat items := by
  cases items with
  | nil => refine ⟨?_, ?_⟩ <;> simp [items_count]
  | cons i rest =>
    obtain ⟨he1, hx1⟩ := item_count_spec cat i
    obtain ⟨he2, hx2⟩ := items_count_spec cat rest
    refine ⟨?_, ?_⟩ <;> simp [items_count] at * <;> omega
termination_by sizeOf items

theorem item_count_spec (cat : Cat) (item : StmtListItem) :
    countEnter cat (itemTrace item) = item_count cat item ∧
    countExit cat (itemTrace item) = item_count cat item := by
  cases item with
  | Stmt s =>
    obtain ⟨he, hx⟩ := stmt_count_spec cat s
    refine ⟨?_, ?_⟩ <;> simp only [itemTrace_stmt, item_count] <;> omega
  | Decl d =>
    obtain ⟨he, hx⟩ := decl_count_spec cat d
    refine ⟨?_, ?_⟩ <;> simp only [itemTrace_decl, item_count] <;> omega
termination_by sizeOf item

theorem stmt_count_spec (cat : Cat) (s : Stmt) :
    countEnter cat (stmtTrace s) = stmt_count cat s ∧
    countExit cat (stmtTrace s) = stmt_count cat s := by
  cases s with
  | Block items =>
    obtain ⟨he, hx⟩ := items_count_spec cat items
    refine ⟨?_, ?_⟩ <;> simp [stmt_count] at * <;> omega
  | Var dtors =>
    obtain ⟨he, hx⟩ := var_count_spec cat dtors
    refine ⟨?_, ?_⟩ <;> simp [stmt_count] at * <;> omega
  | Expr e =>
    obtain ⟨he, hx⟩ := expr_count_spec cat e
    refine ⟨?_, ?_⟩ <;> simp [stmt_count] at * <;> omega
  | If cond cons alt =>
    obtain ⟨he1, hx1⟩ := expr_count_spec cat cond
    obtain ⟨he2, hx2⟩ := stmt_count_spec cat cons
    cases alt with
    | none =>
      refine ⟨?_, ?_⟩ <;> simp [stmt_count] at * <;> omega
    | some a =>
      obtain ⟨he3, hx3⟩ := stmt_count_spec cat a
      refine ⟨?_, ?_⟩ <;> simp [stmt_count] at * <;> omega
  | Label name body =>
    obtain ⟨he, hx⟩ := stmt_count_spec cat body
    refine ⟨?_, ?_⟩ <;> simp [stmt_count] at * <;> omega
  | Switch cond cases' =>
    obtain ⟨he1, hx1⟩ := expr_count_spec cat cond
    obtain ⟨he2, hx2⟩ := cases_count_spec cat cases'
    refine ⟨?_, ?_⟩ <;> simp [stmt_count] at * <;> omega
  | Return arg =>
    cases arg with
    | none => refine ⟨?_, ?_⟩ <;> simp [stmt_count]
    | some a =>
      obtain ⟨he, hx⟩ := expr_count_spec cat a
      refine ⟨?_, ?_⟩ <;> simp [stmt_count] at * <;> omega
  | Throw arg =>
    obtain ⟨he, hx⟩ := expr_count_spec cat arg
    refine ⟨?_, ?_⟩ <;> simp [stmt_count] at * <;> omega
  | Try block caught finBlock =>
    obtain ⟨he1, hx1⟩ := items_count_spec cat block
    cases caught with
    | none =>
      cases finBlock with
      | none => refine ⟨?_, ?_⟩ <;> simp [stmt_count] at * <;> omega
      | some fitems =>
        obtain ⟨he2, hx2⟩ := items_count_spec cat fitems
        refine ⟨?_, ?_⟩ <;> simp [stmt_count] at * <;> omega
    | some ct =>
      cases ct with
      | mk param body =>
        cases body with
        | mk bitems =>
          obtain ⟨he2, hx2⟩ := items_count_spec cat bitems
          cases finBlock with
          | none =>
            refine ⟨?_, ?_⟩ <;>
              simp [stmt_count, catch_count, catchTrace, he1, hx1, he2, hx2] <;> omega
          | some fitems =>
            obtain ⟨he3, hx3⟩ := items_count_spec cat fitems
            refine ⟨?_, ?_⟩ <;>
              simp [stmt_count, catch_count, catchTrace, he1, hx1, he2, hx2, he3, hx3] <;>
              omega
  | While cond body =>
    obtain ⟨he1, hx1⟩ := expr_count_spec cat cond
    obtain ⟨he2, hx2⟩ := stmt_count_spec cat body
    refine ⟨?_, ?_⟩ <;> simp [stmt_count] at * <;> omega
  | DoWhile body cond =>
    obtain ⟨he1, hx1⟩ := stmt_count_spec cat body
    obtain ⟨he2, hx2⟩ := expr_count_spec cat cond
    refine ⟨?_, ?_⟩ <;> simp [stmt_count] at * <;> omega
  | For init cond update body =>
    obtain ⟨he3, hx3⟩ := stmt_count_spec cat body
    cases cond with
    | none =>
      cases update with
      | none => refine ⟨?_, ?_⟩ <;> simp [stmt_count] at * <;> omega
      | some u =>
        obtain ⟨he2, hx2⟩ := expr_count_spec cat u
        refine ⟨?_, ?_⟩ <;> simp [stmt_count] at * <;> omega
    | some cd =>
      obtain ⟨he1, hx1⟩ := expr_count_spec cat cd
      cases update with
      | none => refine ⟨?_, ?_⟩ <;> simp [stmt_count] at * <;> omega
      | some u =>
        obtain ⟨he2, hx2⟩ := expr_count_spec cat u
        refine ⟨?_, ?_⟩ <;> simp [stmt_count] at * <;> omega
  | ForIn head iterable body =>
    obtain ⟨he1, hx1⟩ := expr_count_spec cat iterable
    obtain ⟨he2, hx2⟩ := stmt_count_spec cat body
    refine ⟨?_, ?_⟩ <;> simp [stmt_count] at * <;> omega
  | ForOf head iterable body =>
    obtain ⟨he1, hx1⟩ := expr_count_spec cat iterable
    obtain ⟨he2, hx2⟩ := stmt_count_spec cat body
    refine ⟨?_, ?_⟩ <;> simp [stmt_count] at * <;> omega
  | Other tag => refine ⟨?_, ?_⟩ <;> simp [stmt_count]
termination_by sizeOf s

theorem cases_count_spec (cat : Cat) (cs : List Case) :
    countEnter cat (casesTrace cs) = cases_count cat cs ∧
    countExit cat (casesTrace cs) = cases_count cat cs := by
  cases cs with
  | nil => refine ⟨?_, ?_⟩ <;> simp [cases_count]
  | cons hd rest =>
    cases hd with
    | mk test body =>
      obtain ⟨he2, hx2⟩ := items_count_spec cat body
      obtain ⟨he3, hx3⟩ := cases_count_spec cat rest
      cases test with
      | none =>
        refine ⟨?_, ?_⟩ <;> simp [cases_count] at * <;> omega
      | some t =>
        obtain ⟨he1, hx1⟩ := expr_count_spec cat t
        refine ⟨?_, ?_⟩ <;> simp [cases_count] at * <;> omega
termination_by sizeOf cs

theorem decl_count_spec (cat : Cat) (d : Decl) :
    countEnter cat (declTrace d) = decl_count cat d ∧
    countExit cat (declTrace d) = decl_count cat d := by
  cases d with
  | FunDecl f =>
    obtain ⟨he, hx⟩ := fun_count_spec cat f
    refine ⟨?_, ?_⟩ <;> simp [decl_count] at * <;> omega
  | LetDecl dtors =>
    obtain ⟨he, hx⟩ := var_count_spec cat dtors
    refine ⟨?_, ?_⟩ <;> simp [decl_count] at * <;> omega
  | ConstDecl dtors =>
    obtain ⟨he, hx⟩ := const_dtors_count_spec cat dtors
    refine ⟨?_, ?_⟩ <;> simp [decl_count] at * <;> omega
termination_by sizeOf d

theorem var_count_spec (cat : Cat) (dtors : List Dtor) :
    countEnter cat (varTrace dtors) = var_count cat dtors ∧
    countExit cat (varTrace dtors) = var_count cat dtors := by
  cases dtors with
  | nil => refine ⟨?_, ?_⟩ <;> simp [var_count]
  | cons d rest =>
    obtain ⟨he1, hx1⟩ := dtor_count_spec cat d
    obtain ⟨he2, hx2⟩ := var_count_spec cat rest
    refine ⟨?_, ?_⟩ <;> simp [var_count] at * <;> omega
termination_by sizeOf dtors

theorem dtor_count_spec (cat : Cat) (d : Dtor) :
    countEnter cat (dtorTrace d) = dtor_count cat d ∧
    countExit cat (dtorTrace d) = dtor_count cat d := by
  cases d with
  | Simple id init =>
    cases init with
    | none => refine ⟨?_, ?_⟩ <;> simp [dtor_count]
    | some e =>
      obtain ⟨he, hx⟩ := expr_count_spec cat e
      refine ⟨?_, ?_⟩ <;> simp [dtor_count] at * <;> omega
  | Compound patt value => refine ⟨?_, ?_⟩ <;> simp [dtor_count]
termination_by sizeOf d

theorem const_dtors_count_spec (cat : Cat) (dtors : List ConstDtor) :
    countEnter cat (constDtorsTrace dtors) = const_dtors_count cat dtors ∧
    countExit cat (constDtorsTrace dtors) = const_dtors_count cat dtors := by
  cases dtors with
  | nil => refine ⟨?_, ?_⟩ <;> simp [const_dtors_count]
  | cons d rest =>
    cases d with
    | mk patt value =>
      obtain ⟨he1, hx1⟩ := expr_count_spec cat value
      obtain ⟨he2, hx2⟩ := const_dtors_count_spec cat rest
      refine ⟨?_, ?_⟩ <;> simp [const_dtors_count] at * <;> omega
termination_by sizeOf dtors

theorem expr_count_spec (cat : Cat) (e : Expr) :
    countEnter cat (exprTrace e) = expr_count cat e ∧
    countExit cat (exprTrace e) = expr_count cat e := by
  cases e with
  | Call callee args =>
    obtain ⟨he1, hx1⟩ := expr_count_spec cat callee
    obtain ⟨he2, hx2⟩ := args_count_spec cat args
    refine ⟨?_, ?_⟩ <;> simp [expr_count] at * <;> omega
  | Seq exprs =>
    obtain ⟨he, hx⟩ := exprs_count_spec cat exprs
    refine ⟨?_, ?_⟩ <;> simp [expr_count] at * <;> omega
  | Arr els =>
    obtain ⟨he, hx⟩ := elements_count_spec cat els
    refine ⟨?_, ?_⟩ <;> simp [expr_count] at * <;> omega
  | Obj ps =>
    obtain ⟨he, hx⟩ := props_count_spec cat ps
    refine ⟨?_, ?_⟩ <;> simp [expr_count] at * <;> omega
  | Fun f =>
    obtain ⟨he, hx⟩ := fun_count_spec cat f
    refine ⟨?_, ?_⟩ <;> simp [expr_count] at * <;> omega
  | Binop op a b =>
    obtain ⟨he1, hx1⟩ := expr_count_spec cat a
    obtain ⟨he2, hx2⟩ := expr_count_spec cat b
    refine ⟨?_, ?_⟩ <;> simp [expr_count] at * <;> omega
  | Logop op a b =>
    obtain ⟨he1, hx1⟩ := expr_count_spec cat a
    obtain ⟨he2, hx2⟩ := expr_count_spec cat b
    refine ⟨?_, ?_⟩ <;> simp [expr_count] at * <;> omega
  | Unop op e1 =>
    obtain ⟨he, hx⟩ := expr_count_spec cat e1
    refine ⟨?_, ?_⟩ <;> simp [expr_count] at * <;> omega
  | PreInc t =>
    obtain ⟨he, hx⟩ := target_count_spec cat t
    refine ⟨?_, ?_⟩ <;> simp [expr_count] at * <;> omega
  | PostInc t =>
    obtain ⟨he, hx⟩ := target_count_spec cat t
    refine ⟨?_, ?_⟩ <;> simp [expr_count] at * <;> omega
  | PreDec t =>
    obtain ⟨he, hx⟩ := target_count_spec cat t
    refine ⟨?_, ?_⟩ <;> simp [expr_count] at * <;> omega
  | PostDec t =>
    obtain ⟨he, hx⟩ := target_count_spec cat t
    refine ⟨?_, ?_⟩ <;> simp [expr_count] at * <;> omega
  | Assign target value =>
    obtain ⟨he, hx⟩ := expr_count_spec cat value
    refine ⟨?_, ?_⟩ <;> simp [expr_count] at * <;> omega
  | BinAssign op target value =>
    obtain ⟨he1, hx1⟩ := target_count_spec cat target
    obtain ⟨he2, hx2⟩ := expr_count_spec cat value
    refine ⟨?_, ?_⟩ <;> simp [expr_count] at * <;> omega
  | Cond cond cons alt =>
    obtain ⟨he1, hx1⟩ := expr_count_spec cat cond
    obtain ⟨he2, hx2⟩ := expr_count_spec cat cons
    obtain ⟨he3, hx3⟩ := expr_count_spec cat alt
    refine ⟨?_, ?_⟩ <;> simp [expr_count] at * <;> omega
  | Dot object property =>
    obtain ⟨he, hx⟩ := expr_count_spec cat object
    refine ⟨?_, ?_⟩ <;> simp [expr_count] at * <;> omega
  | Brack object property =>
    obtain ⟨he1, hx1⟩ := expr_count_spec cat object
    obtain ⟨he2, hx2⟩ := expr_count_spec cat property
    refine ⟨?_, ?_⟩ <;> simp [expr_count] at * <;> omega
  | Id name => refine ⟨?_, ?_⟩ <;> simp [expr_count]
  | New callee args => refine ⟨?_, ?_⟩ <;> simp [expr_count]
  | Other tag => refine ⟨?_, ?_⟩ <;> simp [expr_count]
termination_by sizeOf e

theorem args_count_spec (cat : Cat) (args : List ExprListItem) :
    countEnter cat (argsTrace args) = args_count cat args ∧
    countExit cat (argsTrace args) = args_count cat args := by
  cases args with
  | nil => refine ⟨?_, ?_⟩ <;> simp [args_count]
  | cons item rest =>
    obtain ⟨he2, hx2⟩ := args_count_spec cat rest
    cases item with
    | Expr e =>
      obtain ⟨he1, hx1⟩ := expr_count_spec cat e
      refine ⟨?_, ?_⟩ <;> simp [args_count] at * <;> omega
    | Spread e =>
      obtain ⟨he1, hx1⟩ := expr_count_spec cat e
      refine ⟨?_, ?_⟩ <;> simp [args_count] at * <;> omega
termination_by sizeOf args

theorem exprs_count_spec (cat : Cat) (es : List Expr) :
    countEnter cat (exprsTrace es) = exprs_count cat es ∧
    countExit cat (exprsTrace es) = exprs_count cat es := by
  cases es with
  | nil => refine ⟨?_, ?_⟩ <;> simp [exprs_count]
  | cons e rest =>
    obtain ⟨he1, hx1⟩ := expr_count_spec cat e
    obtain ⟨he2, hx2⟩ := exprs_count_spec cat rest
    refine ⟨?_, ?_⟩ <;> simp [exprs_count] at * <;> omega
termination_by sizeOf es

theorem elements_count_spec (cat : Cat) (els : List (Option ExprListItem)) :
    countEnter cat (elementsTrace els) = elements_count cat els ∧
    countExit cat (elementsTrace els) = elements_count cat els := by
  cases els with
  | nil => refine ⟨?_, ?_⟩ <;> simp [elements_count]
  | cons el rest =>
    obtain ⟨he2, hx2⟩ := elements_count_spec cat rest
    cases el with
    | none => refine ⟨?_, ?_⟩ <;> simp [elements_count] at * <;> omega
    | some item =>
      cases item with
      | Expr e =>
        obtain ⟨he1, hx1⟩ := expr_count_spec cat e
        refine ⟨?_, ?_⟩ <;> simp [elements_count] at * <;> omega
      | Spread e =>
        obtain ⟨he1, hx1⟩ := expr_count_spec cat e
        refine ⟨?_, ?_⟩ <;> simp [elements_count] at * <;> omega
termination_by sizeOf els

theorem props_count_spec (cat : Cat) (ps : List Prop') :
    countEnter cat (propsTrace ps) = props_count cat ps ∧
    countExit cat (propsTrace ps) = props_count cat ps := by
  cases ps with
  | nil => refine ⟨?_, ?_⟩ <;> simp [props_count]
  | cons p rest =>
    obtain ⟨he1, hx1⟩ := prop_count_spec cat p
    obtain ⟨he2, hx2⟩ := props_count_spec cat rest
    refine ⟨?_, ?_⟩ <;> simp [props_count] at * <;> omega
termination_by sizeOf ps

theorem prop_count_spec (cat : Cat) (p : Prop') :
    countEnter cat (propTrace p) = prop_count cat p ∧
    countExit cat (propTrace p) = prop_count cat p := by
  cases p with
  | Regular key val =>
    cases val with
    | Init value =>
      obtain ⟨he, hx⟩ := expr_count_spec cat value
      refine ⟨?_, ?_⟩ <;> simp [prop_count] at * <;> omega
    | Get body =>
      cases body with
      | mk items =>
        obtain ⟨he, hx⟩ := items_count_spec cat items
        refine ⟨?_, ?_⟩ <;> simp [prop_count] at * <;> omega
    | Set param body =>
      cases body with
      | mk items =>
        obtain ⟨he, hx⟩ := items_count_spec cat items
        refine ⟨?_, ?_⟩ <;> simp [prop_count] at * <;> omega
  | Method f =>
    obtain ⟨he, hx⟩ := fun_count_spec cat f
    refine ⟨?_, ?_⟩ <;> simp [prop_count] at * <;> omega
  | Shorthand id => refine ⟨?_, ?_⟩ <;> simp [prop_count]
termination_by sizeOf p

theorem target_count_spec (cat : Cat) (t : AssignTarget) :
    countEnter cat (targetTrace t) = target_count cat t ∧
    countExit cat (targetTrace t) = target_count cat t := by
  cases t with
  | Id name => refine ⟨?_, ?_⟩ <;> simp [target_count]
  | Dot object property =>
    obtain ⟨he, hx⟩ := expr_count_spec cat object
    refine ⟨?_, ?_⟩ <;> simp [target_count] at * <;> omega
  | Brack object property =>
    obtain ⟨he1, hx1⟩ := expr_count_spec cat object
    obtain ⟨he2, hx2⟩ := expr_count_spec cat property
    refine ⟨?_, ?_⟩ <;> simp [target_count] at * <;> omega
termination_by sizeOf t

theorem fun_count_spec (cat : Cat) (f : Fun) :
    countEnter cat (funTrace f) = fun_count cat f ∧
    countExit cat (funTrace f) = fun_count cat f := by
  cases f with
  | mk i p body =>
    cases body with
    | mk items =>
      obtain ⟨he, hx⟩ := items_count_spec cat items
      refine ⟨?_, ?_⟩ <;>
        simp [fun_count, Fun.body, Script.items, he, hx] <;> omega
termination_by sizeOf f

end

/-- Count correspondence for a whole walk from the Script root. -/
theorem script_count_spec (cat : Cat) (ast : Script) :
    countEnter cat (scriptTrace ast) = script_count cat ast ∧
    countExit cat (scriptTrace ast) = script_count cat ast := by
  cases ast with
  | mk items =>
    obtain ⟨he, hx⟩ := items_count_spec cat items
    refine ⟨?_, ?_⟩ <;> simp [script_count] at * <;> omega

/-- Running two callback sets side by side in a single walk: each hook acts
componentwise on its own state. -/
def prodCallbacks {A B : Type} (f : Callbacks A) (g : Callbacks B) : Callbacks (A × B) where
  pre_script := fun p n => (f.pre_script p.1 n, g.pre_script p.2 n)
  pre_stmt := fun p n => (f.pre_stmt p.1 n, g.pre_stmt p.2 n)
  pre_expr := fun p n => (f.pre_expr p.1 n, g.pre_expr p.2 n)
  pre_decl := fun p n => (f.pre_decl p.1 n, g.pre_decl p.2 n)
  pre_fun := fun p n => (f.pre_fun p.1 n, g.pre_fun p.2 n)
  post_script := fun p n => (f.post_script p.1 n, g.post_script p.2 n)
  post_stmt := fun p n => (f.post_stmt p.1 n, g.post_stmt p.2 n)
  post_expr := fun p n => (f.post_expr p.1 n, g.post_expr p.2 n)
  post_decl := fun p n => (f.post_decl p.1 n, g.post_decl p.2 n)
  post_fun := fun p n => (f.post_fun p.1 n, g.post_fun p.2 n)

theorem prodSim_fst {A B : Type} (f : Callbacks A) (g : Callbacks B) :
    Sim (prodCallbacks f g) f Prod.fst := by
  constructor <;> intro c n <;> rfl

theorem prodSim_snd {A B : Type} (f : Callbacks A) (g : Callbacks B) :
    Sim (prodCallbacks f g) g Prod.snd := by
  constructor <;> intro c n <;> rfl

/-- Every event is the enter or the exit of exactly one of the five hook
categories, so a trace's length is the sum of all ten counts. -/
theorem length_eq_sum_counts (t : List Event) :
    t.length =
      countEnter Cat.script t + countExit Cat.script t +
        (countEnter Cat.stmt t + countExit Cat.stmt t) +
        (countEnter Cat.expr t + countExit Cat.expr t) +
        (countEnter Cat.decl t + countExit Cat.decl t) +
        (countEnter Cat.fn t + countExit Cat.fn t) := by
  induction t with
  | nil => rfl
  | cons e rest ih => cases e <;> simp <;> omega

/-- The hook calls a script's top-level items contribute (used to state that
the script's own enter/exit hooks bracket exactly its descendants' calls). -/
def scriptInnerTrace (ast : Script) : List Event :=
  itemsTrace ast.items

/-- The hook calls a function's body items contribute. -/
def funInnerTrace (f : Fun) : List Event :=
  itemsTrace f.body.items

/-- C1: every visited node produces exactly one enter-hook call, then the
hook calls of its declared children in dispatch order, then exactly one
exit-hook call — so the enter call strictly precedes and the exit call
strictly follows every descendant's hook call; consequently, for each of
the five node categories, the number of enter-hook calls in a walk equals
the number of exit-hook calls and equals the number of nodes of that
category the dispatch visits (`script_count`). -/
theorem C1_hook_discipline :
    (∀ ast : Script,
      scriptTrace ast = .enterScript ast :: (scriptInnerTrace ast ++ [.exitScript ast])) ∧
    (∀ s : Stmt,
      stmtTrace s = .enterStmt s :: (stmtInnerTrace s ++ [.exitStmt s])) ∧
    (∀ e : Expr,
      exprTrace e = .enterExpr e :: (exprInnerTrace e ++ [.exitExpr e])) ∧
    (∀ d : Decl,
      declTrace d = .enterDecl d :: (declInnerTrace d ++ [.exitDecl d])) ∧
    (∀ f : Fun,
      funTrace f = .enterFun f :: (funInnerTrace f ++ [.exitFun f])) ∧
    (∀ (cat : Cat) (ast : Script),
      countEnter cat (scriptTrace ast) = script_count cat ast ∧
      countExit cat (scriptTrace ast) = script_count cat ast) := by
  refine ⟨?_, ?_, ?_, ?_, ?_, ?_⟩
  · intro ast
    cases ast with
    | mk items => simp [scriptInnerTrace, Script.items]
  · intro s
    exact stmtTrace_eq s
  · intro e
    exact exprTrace_eq e
  · intro d
    exact declTrace_eq d
  · intro f
    simp [funInnerTrace]
  · intro cat ast
    exact script_count_spec cat ast

/-- C2 counterexample: a `var` statement whose single declarator binds a
compound (destructuring) pattern has an initializer present, yet the walk
fires no hook at all for that initializer — the claim's "for any declarator,
regardless of the shape of its binding pattern" fails on the code, which
walks only `Dtor::Simple` initializers. -/
theorem C2_counterexample :
    stmtTrace (Stmt.Var [Dtor.Compound (Patt.Compound "arrayPattern") (Expr.Id "x")]) =
      [.enterStmt (Stmt.Var [Dtor.Compound (Patt.Compound "arrayPattern") (Expr.Id "x")]),
        .exitStmt (Stmt.Var [Dtor.Compound (Patt.Compound "arrayPattern") (Expr.Id "x")])] ∧
    Event.enterExpr (Expr.Id "x") ∉
      stmtTrace (Stmt.Var [Dtor.Compound (Patt.Compound "arrayPattern") (Expr.Id "x")]) := by
  constructor
  · simp
  · simp

/-- C2 (amended): for every Var statement and every Let binding, the walk
visits a declarator's initializer exactly when the declarator is a simple
identifier binding whose initializer is present; a compound (destructuring)
declarator is not traversed at all — its mandatory initializer included —
and nothing else of any declarator is visited. -/
theorem C2_var_let_declarators :
    (∀ (id : String) (e : Expr), dtorTrace (Dtor.Simple id (some e)) = exprTrace e) ∧
    (∀ id : String, dtorTrace (Dtor.Simple id none) = []) ∧
    (∀ (p : Patt) (v : Expr), dtorTrace (Dtor.Compound p v) = []) ∧
    (∀ dtors : List Dtor, stmtInnerTrace (Stmt.Var dtors) = varTrace dtors) ∧
    (∀ dtors : List Dtor, declInnerTrace (Decl.LetDecl dtors) = varTrace dtors) ∧
    (varTrace [] = []) ∧
    (∀ (d : Dtor) (rest : List Dtor), varTrace (d :: rest) = dtorTrace d ++ varTrace rest) := by
  refine ⟨?_, ?_, ?_, ?_, ?_, ?_, ?_⟩ <;> intros <;> simp

/-- The inner call `g()` of the nested-call example. -/
def exampleInnerCall : Expr := .Call (.Id "g") []

/-- The statement `g();`. -/
def exampleInnerStmt : Stmt := .Expr exampleInnerCall

/-- The anonymous function expression `function(){ g(); }`. -/
def exampleFun : Fun := .mk none [] (.mk [.Stmt exampleInnerStmt])

/-- The call `f(function(){ g(); })`. -/
def exampleOuterCall : Expr := .Call (.Id "f") [.Expr (.Fun exampleFun)]

/-- A script whose single statement is `f(function(){ g(); });`. -/
def exampleScript : Script := .mk [.Stmt (.Expr exampleOuterCall)]

/-- C3: walking `f(function(){ g(); })` produces exactly the claimed hook
sequence at the expression/function/statement level (bracketed only by the
script's and the outer expression-statement's own enter/exit hooks). -/
theorem C3_nested_call_trace :
    scriptTrace exampleScript =
      [.enterScript exampleScript, .enterStmt (.Expr exampleOuterCall)] ++
        [.enterExpr exampleOuterCall,
          .enterExpr (.Id "f"), .exitExpr (.Id "f"),
          .enterExpr (.Fun exampleFun), .enterFun exampleFun,
          .enterStmt exampleInnerStmt,
          .enterExpr exampleInnerCall,
          .enterExpr (.Id "g"), .exitExpr (.Id "g"),
          .exitExpr exampleInnerCall,
          .exitStmt exampleInnerStmt,
          .exitFun exampleFun,
          .exitExpr (.Fun exampleFun),
          .exitExpr exampleOuterCall] ++
        [.exitStmt (.Expr exampleOuterCall), .exitScript exampleScript] := by
  simp [exampleScript, exampleOuterCall, exampleFun, exampleInnerStmt, exampleInnerCall,
    Fun.body, Script.items]

/-- C4: object-literal property dispatch — a regular property with a plain
initializer walks exactly its value expression; a regular property with a
getter or setter walks exactly the accessor body's items; a method property
is walked as a Function; a shorthand property produces no child hook calls. -/
theorem C4_property_dispatch :
    (∀ (key : String) (value : Expr),
      propTrace (.Regular key (.Init value)) = exprTrace value) ∧
    (∀ (key : String) (body : Script),
      propTrace (.Regular key (.Get body)) = itemsTrace body.items) ∧
    (∀ (key : String) (param : Patt) (body : Script),
      propTrace (.Regular key (.Set param body)) = itemsTrace body.items) ∧
    (∀ f : Fun, propTrace (.Method f) = funTrace f) ∧
    (∀ id : String, propTrace (.Shorthand id) = []) := by
  refine ⟨?_, ?_, ?_, ?_, ?_⟩
  · intro key value
    simp
  · intro key body
    cases body with
    | mk items => simp [Script.items]
  · intro key param body
    cases body with
    | mk items => simp [Script.items]
  · intro f
    simp
  · intro id
    simp

/-- C5: a Statement or Expression variant outside the dispatch table gets a
shallow visit — exactly one enter and one exit hook at its own level, zero
descendant hook calls, and no error (the walk is a total function even on
such nodes; `Expr.New` shows a variant with children that are still not
walked). -/
theorem C5_shallow_fallback :
    (∀ tag : String,
      stmtTrace (Stmt.Other tag) =
        [.enterStmt (Stmt.Other tag), .exitStmt (Stmt.Other tag)]) ∧
    (∀ name : String,
      exprTrace (Expr.Id name) =
        [.enterExpr (Expr.Id name), .exitExpr (Expr.Id name)]) ∧
    (∀ (callee : Expr) (args : List ExprListItem),
      exprTrace (Expr.New callee args) =
        [.enterExpr (Expr.New callee args), .exitExpr (Expr.New callee args)]) ∧
    (∀ tag : String,
      exprTrace (Expr.Other tag) =
        [.enterExpr (Expr.Other tag), .exitExpr (Expr.Other tag)]) := by
  refine ⟨?_, ?_, ?_, ?_⟩ <;> intros <;> simp

/-- C6: a `for` statement visits its condition (if present), then its update
(if present), then its body — for every possible init head, which is never
visited; `for-in`/`for-of` visit the iterable then the body, and the loop
head/binding is never visited (the trace is independent of it and contains
nothing else). -/
theorem C6_loop_dispatch :
    (∀ (init : Option ForHead) (cond update : Option Expr) (body : Stmt),
      stmtTrace (.For init cond update body) =
        .enterStmt (.For init cond update body) ::
          ((optTrace exprTrace cond ++ (optTrace exprTrace update ++ stmtTrace body)) ++
            [.exitStmt (.For init cond update body)])) ∧
    (∀ (head : ForInHead) (iterable : Expr) (body : Stmt),
      stmtTrace (.ForIn head iterable body) =
        .enterStmt (.ForIn head iterable body) ::
          ((exprTrace iterable ++ stmtTrace body) ++
            [.exitStmt (.ForIn head iterable body)])) ∧
    (∀ (head : ForOfHead) (iterable : Expr) (body : Stmt),
      stmtTrace (.ForOf head iterable body) =
        .enterStmt (.ForOf head iterable body) ::
          ((exprTrace iterable ++ stmtTrace body) ++
            [.exitStmt (.ForOf head iterable body)])) := by
  refine ⟨?_, ?_, ?_⟩ <;> intros <;> simp

/-- C7: `Walker::walk` performs exactly one full depth-first pre/post-order
traversal starting at the Script root with the callback value supplied at
construction, and returns that same callback value as mutated by the hooks —
state the callbacks accumulated (here: the full event trace appended to the
caller's initial state) is available to the caller afterwards. -/
theorem C7_run_returns_callbacks :
    (∀ (A : Type) (cbs : Callbacks A) (c : A) (ast : Script),
      Walker.walk cbs (Walker.new ast c) = walk_script cbs c ast) ∧
    (∀ (ast : Script) (l : List Event),
      Walker.walk traceCallbacks (Walker.new ast l) = l ++ scriptTrace ast) := by
  constructor
  · intro A cbs c ast
    rfl
  · intro ast l
    exact walk_script_hom l ast

/-- C8: the walk is total — every `walk_*` function is a terminating,
nowhere-failing Lean function — and once started it always runs to
completion, visiting every node the dispatch reaches: the trace has exactly
two events (one enter, one exit) for every visited node of every category,
with no cancellation or early exit. -/
theorem C8_total_traversal (ast : Script) :
    (scriptTrace ast).length =
      2 * (script_count Cat.script ast + script_count Cat.stmt ast +
        script_count Cat.expr ast + script_count Cat.decl ast +
        script_count Cat.fn ast) := by
  have hlen := length_eq_sum_counts (scriptTrace ast)
  have h1 := script_count_spec Cat.script ast
  have h2 := script_count_spec Cat.stmt ast
  have h3 := script_count_spec Cat.expr ast
  have h4 := script_count_spec Cat.decl ast
  have h5 := script_count_spec Cat.fn ast
  omega

/-- C9: the walk is deterministic and non-interfering — one walk driving two
independent callback sets componentwise gives exactly the pair of results of
two separate walks, one per callback set: both see the same nodes in the
same order and neither's accumulated state influences the other's. -/
theorem C9_non_interference {A B : Type} (f : Callbacks A) (g : Callbacks B)
    (a : A) (b : B) (ast : Script) :
    Walker.walk (prodCallbacks f g) (Walker.new ast (a, b)) =
      (Walker.walk f (Walker.new ast a), Walker.walk g (Walker.new ast b)) := by
  have h1 := walk_script_sim (prodSim_fst f g) (a, b) ast
  have h2 := walk_script_sim (prodSim_snd f g) (a, b) ast
  show walk_script (prodCallbacks f g) (a, b) ast =
    (walk_script f a ast, walk_script g b ast)
  exact Prod.ext h1 h2

/-- C10: a getter/setter accessor body is walked without any Function
enter/exit hook for the accessor itself (its trace is exactly its body
items' trace, so its Function-enter count is exactly the body's), whereas a
method property fires exactly one Function enter/exit pair around its body —
accessors are never counted as Function nodes by the hooks. -/
theorem C10_accessors_not_functions :
    (∀ (key : String) (body : Script),
      propTrace (.Regular key (.Get body)) = itemsTrace body.items ∧
      countEnter Cat.fn (propTrace (.Regular key (.Get body))) =
        items_count Cat.fn body.items) ∧
    (∀ (key : String) (param : Patt) (body : Script),
      propTrace (.Regular key (.Set param body)) = itemsTrace body.items ∧
      countEnter Cat.fn (propTrace (.Regular key (.Set param body))) =
        items_count Cat.fn body.items) ∧
    (∀ f : Fun,
      propTrace (.Method f) =
        .enterFun f :: (itemsTrace f.body.items ++ [.exitFun f]) ∧
      countEnter Cat.fn (propTrace (.Method f)) =
        items_count Cat.fn f.body.items + 1) := by
  refine ⟨?_, ?_, ?_⟩
  · intro key body
    cases body with
    | mk items =>
      obtain ⟨he, _⟩ := items_count_spec Cat.fn items
      constructor
      · simp [Script.items]
      · simp [Script.items, he]
  · intro key param body
    cases body with
    | mk items =>
      obtain ⟨he, _⟩ := items_count_spec Cat.fn items
      constructor
      · simp [Script.items]
      · simp [Script.items, he]
  · intro f
    cases f with
    | mk i p body =>
      cases body with
      | mk items =>
        obtain ⟨he, _⟩ := items_count_spec Cat.fn items
        constructor
        · simp [Fun.body, Script.items]
        · simp [Fun.body, Script.items, he]

end JsBundler
